import Mathlib

-- Batteries marks the arithmetic of `Rat` irreducible; re-allow unfolding so
-- that concrete runs of the (fully executable) model can be checked by
-- `decide`.
set_option allowUnsafeReducibility true
attribute [local semireducible] Rat.add Rat.mul Rat.sub Rat.inv Rat.ofScientific

/-!
Verification development for the page-load time estimator
(`lighthouse-core/gather/computed/dependency-graph/estimator/tcp-connection.js`):
the `TcpConnection` transfer-time model and the `Estimator` graph scheduler.

Numbers are embedded as exact rationals (`ℚ`).  JavaScript's `Infinity`
sentinel (default `maximumTimeToElapse`, `Math.min` seeds, the response-time
sentinel of `Estimator.getResponseTime`) is embedded as `Option ℚ` with
`none` standing for `+∞`.  The admissible inputs of the estimator are finite
numbers, so `NaN` never arises on the modelled paths.

The file is organised as definitions first (the embedding of the source),
then the lemmas and claim theorems.
-/

namespace Lighthouse

/-- `const INITIAL_CONGESTION_WINDOW = 10;` -/
def INITIAL_CONGESTION_WINDOW : ℚ := 10

/-- `const TCP_SEGMENT_SIZE = 1460;` -/
def TCP_SEGMENT_SIZE : ℚ := 1460

/-! ### Extended rationals: `Option ℚ` with `none = +∞` -/

/-- `Math.min` on `Option ℚ` (`none` is `Infinity`, the seed of the folds). -/
def emin : Option ℚ → Option ℚ → Option ℚ
  | none, b => b
  | some a, none => some a
  | some a, some b => some (min a b)

/-- Subtracting a finite rational from an extended rational:
`Infinity - q = Infinity`. -/
def esub (o : Option ℚ) (q : ℚ) : Option ℚ := o.map (fun m => m - q)

/-- Adding an extended rational to an extended rational:
anything plus `Infinity` is `Infinity`. -/
def eadd : Option ℚ → Option ℚ → Option ℚ
  | some a, some b => some (a + b)
  | _, _ => none

/-- `dl <= maxDl` where `maxDl` may be `Infinity`. -/
def dlLe (dl : ℚ) : Option ℚ → Bool
  | none => true
  | some m => decide (dl ≤ m)

/-- Strict JavaScript equality `a === b` between a stored estimate
(`undefined` before the first estimate, embedded as `none`) and the step
length (`Infinity` embedded as `none`).  `undefined === x` is false for
every number `x`, and a finite number never equals `Infinity`; the
`Infinity === Infinity` case cannot arise because stored estimates are
finite rationals here, so `none`/`none` is mapped to `false`. -/
def eeq : Option ℚ → Option ℚ → Bool
  | some a, some b => decide (a = b)
  | _, _ => false

/-! ### The TCP connection model (`class TcpConnection`) -/

/-- State of `TcpConnection` (constructor, lines 12-19): round-trip time,
currently available throughput, server response time, SSL flag, warmed flag
and congestion window. -/
structure TcpConnection where
  warmed : Bool
  ssl : Bool
  rtt : ℚ
  availableThroughput : ℚ
  responseTime : ℚ
  congestionWindow : ℚ
deriving Repr, DecidableEq

namespace TcpConnection

/-- Constructor defaults: `constructor(rtt, throughput, responseTime = 0,
ssl = true)` with `_warmed = false` and the initial congestion window. -/
def mk0 (rtt throughput : ℚ) (responseTime : ℚ := 0) (ssl : Bool := true) :
    TcpConnection :=
  { warmed := false, ssl := ssl, rtt := rtt,
    availableThroughput := throughput, responseTime := responseTime,
    congestionWindow := INITIAL_CONGESTION_WINDOW }

/-- `static maximumSaturatedConnections(rtt, availableThroughput)`:
`Math.floor(availableThroughput / ((1000 / rtt) * TCP_SEGMENT_SIZE * 8))`. -/
def maximumSaturatedConnections (rtt availableThroughput : ℚ) : ℤ :=
  ⌊availableThroughput / (1000 / rtt * TCP_SEGMENT_SIZE * 8)⌋

/-- `_computeMaximumCongestionWindowInSegments()`:
`Math.floor((availableThroughput / 8) * (rtt / 1000) / TCP_SEGMENT_SIZE)`. -/
def computeMaximumCongestionWindowInSegments (c : TcpConnection) : ℤ :=
  ⌊c.availableThroughput / 8 * (c.rtt / 1000) / TCP_SEGMENT_SIZE⌋

/-- `setThroughput(throughput)`. -/
def setThroughput (c : TcpConnection) (throughput : ℚ) : TcpConnection :=
  { c with availableThroughput := throughput }

/-- `setCongestionWindow(congestion)`. -/
def setCongestionWindow (c : TcpConnection) (congestion : ℚ) : TcpConnection :=
  { c with congestionWindow := congestion }

/-- `setWarmed(value)`. -/
def setWarmed (c : TcpConnection) (value : Bool) : TcpConnection :=
  { c with warmed := value }

/-- Result object of `calculateTimeToDownload` (lines 98-112; the two
return branches build the identical object). -/
structure CalcResult where
  roundTrips : ℤ
  timeElapsed : ℚ
  bytesDownloaded : ℚ
  congestionWindow : ℚ
deriving Repr, DecidableEq

/-- The `while` loop of `calculateTimeToDownload` (lines 85-93):

```
while (bytesRemaining > 0 && downloadTimeElapsed <= maximumDownloadTimeToElapse) {
  roundTrips++;
  downloadTimeElapsed += twoWayLatency;
  congestionWindow = Math.max(Math.min(maximumCongestionWindow, congestionWindow * 2), 1);
  const bytesDownloadedInWindow = congestionWindow * TCP_SEGMENT_SIZE;
  bytesDownloaded += bytesDownloadedInWindow;
  bytesRemaining -= bytesDownloadedInWindow;
}
```

State is `(roundTrips, downloadTimeElapsed, congestionWindow,
bytesDownloaded)`; `br` is `bytesRemaining` and `maxDl` the (possibly
infinite) `maximumDownloadTimeToElapse`.  The loop is phrased with a fuel
counter so that it is a structural recursion the kernel can evaluate; the
canonical fuel `dlFuel br` is proved sufficient (the updated window is at
least `1`, so `bytesRemaining` drops by at least `TCP_SEGMENT_SIZE` per
iteration) and `dlLoop_eq` below recovers the exact `while` semantics. -/
def dlLoopF (mc rtt : ℚ) (maxDl : Option ℚ) :
    ℕ → ℤ → ℚ → ℚ → ℚ → ℚ → ℤ × ℚ × ℚ × ℚ
  | 0, rt, dl, cw, bd, _ => (rt, dl, cw, bd)
  | fuel + 1, rt, dl, cw, bd, br =>
    if 0 < br ∧ dlLe dl maxDl = true then
      dlLoopF mc rtt maxDl fuel (rt + 1) (dl + rtt)
        (max (min mc (cw * 2)) 1)
        (bd + max (min mc (cw * 2)) 1 * TCP_SEGMENT_SIZE)
        (br - max (min mc (cw * 2)) 1 * TCP_SEGMENT_SIZE)
    else
      (rt, dl, cw, bd)

/-- Canonical fuel for `dlLoopF`: strictly more than the number of loop
iterations possible from `bytesRemaining = br`. -/
def dlFuel (br : ℚ) : ℕ := (⌈br⌉).toNat + 1

/-- The `while` loop of lines 85-93. -/
def dlLoop (mc rtt : ℚ) (maxDl : Option ℚ) (rt : ℤ) (dl cw bd br : ℚ) :
    ℤ × ℚ × ℚ × ℚ :=
  dlLoopF mc rtt maxDl (dlFuel br) rt dl cw bd br

/-- `calculateTimeToDownload(bytesToDownload, timeAlreadyElapsed = 0,
maximumTimeToElapse = Infinity)` (lines 52-113), translated clause by
clause.  The guard `Number.isFinite(maximumTimeToElapse)` at the end
selects between two identical return objects, so it is dropped. -/
def calculateTimeToDownload (c : TcpConnection) (bytesToDownload : ℚ)
    (timeAlreadyElapsed : ℚ := 0) (maximumTimeToElapse : Option ℚ := none) :
    CalcResult :=
  let twoWayLatency := c.rtt
  let oneWayLatency := twoWayLatency / 2
  let maximumCongestionWindow : ℚ := (c.computeMaximumCongestionWindowInSegments : ℤ)
  let handshakeAndRequest :=
    if c.warmed then oneWayLatency
    else oneWayLatency + oneWayLatency + oneWayLatency +
      (if c.ssl then twoWayLatency else 0)
  let roundTrips0 : ℤ := ⌈handshakeAndRequest / twoWayLatency⌉
  let timeToFirstByte := handshakeAndRequest + c.responseTime + oneWayLatency
  let timeElapsedForTTFB := max (timeToFirstByte - timeAlreadyElapsed) 0
  let maximumDownloadTimeToElapse := esub maximumTimeToElapse timeElapsedForTTFB
  let congestionWindow := min c.congestionWindow maximumCongestionWindow
  let bytesDownloaded0 :=
    if 0 < timeElapsedForTTFB then congestionWindow * TCP_SEGMENT_SIZE else 0
  let roundTrips1 := if 0 < timeElapsedForTTFB then roundTrips0 else 0
  let res := dlLoop maximumCongestionWindow twoWayLatency
    maximumDownloadTimeToElapse roundTrips1 0 congestionWindow
    bytesDownloaded0 (bytesToDownload - bytesDownloaded0)
  { roundTrips := res.1,
    timeElapsed := timeElapsedForTTFB + res.2.1,
    bytesDownloaded := min res.2.2.2 bytesToDownload,
    congestionWindow := res.2.2.1 }

/-- `calculateTimeToDownload` with the receiver threaded through in
state-passing style: the method body only reads `this`, never writes it, so
the returned connection is the input connection. -/
def calculateTimeToDownloadS (c : TcpConnection) (bytesToDownload : ℚ)
    (timeAlreadyElapsed : ℚ := 0) (maximumTimeToElapse : Option ℚ := none) :
    CalcResult × TcpConnection :=
  (calculateTimeToDownload c bytesToDownload timeAlreadyElapsed
    maximumTimeToElapse, c)

/-- The spec's formula for the time to first byte: handshake cost
(`1.5 × rtt + (ssl ? rtt : 0)` cold, `rtt / 2` warm) plus server response
time plus `rtt / 2`. -/
def specTimeToFirstByte (c : TcpConnection) : ℚ :=
  (if c.warmed then c.rtt / 2
   else 3 / 2 * c.rtt + (if c.ssl then c.rtt else 0)) +
    c.responseTime + c.rtt / 2

end TcpConnection

/-! ### Network records and response times (`class Estimator`, init phase) -/

/-- The `_timing` object of a record: only `sendEnd` and `receiveHeadersEnd`
are read. -/
structure Timing where
  sendEnd : ℚ
  receiveHeadersEnd : ℚ
deriving Repr, DecidableEq

/-- A network record as consumed by the estimator: `connectionId`,
`transferSize`, the `parsedURL.scheme === 'https'` flag, and the optional
`_timing` object. -/
structure NetworkRecord where
  connectionId : ℕ
  transferSize : ℚ
  schemeIsHttps : Bool
  timing : Option Timing
deriving Repr, DecidableEq

namespace Estimator

/-- `static getResponseTime(record)` (lines 167-170):
`(timing && timing.receiveHeadersEnd - timing.sendEnd) || Infinity`.
A missing `timing` is falsy, so the result is `Infinity` (`none`); and when
the measured difference is exactly `0` it is falsy as well, so `||` also
yields `Infinity`.  Any nonzero difference is truthy and returned as is. -/
def getResponseTime (r : NetworkRecord) : Option ℚ :=
  match r.timing with
  | none => none
  | some t =>
    if t.receiveHeadersEnd - t.sendEnd = 0 then none
    else some (t.receiveHeadersEnd - t.sendEnd)

/-- The response time of one connection-id group
(`_initializeNetworkConnections`, lines 194-201):
`records.reduce((min, r) => Math.min(min, getResponseTime(r)), Infinity)`,
replaced by the configured default when not finite. -/
def groupResponseTime (defaultResponseTime : ℚ)
    (records : List NetworkRecord) : ℚ :=
  match records.foldl (fun m r => emin m (getResponseTime r)) none with
  | none => defaultResponseTime
  | some v => v

/-- The estimator's options with their defaults (lines 127-131, 148-156). -/
structure EstimatorOptions where
  rtt : ℚ
  throughput : ℚ
  defaultResponseTime : ℚ
  maximumConcurrentRequests : ℚ
deriving Repr, DecidableEq

/-- `DEFAULT_RTT = 150`, `DEFAULT_THROUGHPUT = 1600 * 1024`,
`DEFAULT_RESPONSE_TIME = 30`, `DEFAULT_MAXIMUM_CONCURRENT_REQUESTS = 10`. -/
def defaultOptions : EstimatorOptions :=
  { rtt := 150, throughput := 1600 * 1024, defaultResponseTime := 30,
    maximumConcurrentRequests := 10 }

/-- The `TcpConnection` built for one connection-id group (lines 192-211):
rtt and total throughput from the options, SSL flag from the first record's
scheme, response time from `groupResponseTime`.  `groupBy` never produces an
empty group; for totality the SSL flag of an impossible empty group defaults
to `true`. -/
def connectionForGroup (o : EstimatorOptions)
    (records : List NetworkRecord) : TcpConnection :=
  TcpConnection.mk0 o.rtt o.throughput
    (groupResponseTime o.defaultResponseTime records)
    ((records.head?.map (fun r => r.schemeIsHttps)).getD true)

/-- A concrete record whose measured response time
(`receiveHeadersEnd - sendEnd`) is finite and exactly `0`. -/
def zeroTimingRecord : NetworkRecord :=
  { connectionId := 1, transferSize := 0, schemeIsHttps := true,
    timing := some { sendEnd := 5, receiveHeadersEnd := 5 } }

end Estimator

/-! ### The dependency graph -/

/-- `Node.TYPES`: only `NETWORK` nodes are simulated; everything else
(`CPU`) merely sits in the graph. -/
inductive NodeType where
  | network
  | cpu
deriving Repr, DecidableEq

/-- The dependency graph as consumed by the estimator: node identities are
natural numbers; `typeOf`/`recordOf` give each node's `type` and `record`,
and `deps`/`dependents` are `getDependencies()`/`getDependents()`. -/
structure Graph where
  nodeIds : List ℕ
  root : ℕ
  typeOf : ℕ → NodeType
  recordOf : ℕ → NetworkRecord
  deps : ℕ → List ℕ
  dependents : ℕ → List ℕ

/-- Modelled from the spec: the `Node` class (with
`getRootNode().traverse(visitor)`) is not part of the provided sources.
The spec says `traverse` "visits every reachable node exactly once in some
deterministic order"; it is modelled as a breadth-first walk from the root
along `dependents`, visiting in insertion order.  Ids outside `nodeIds`
are ignored.  The fuel is generous: every queue entry consumes one unit and
at most `1 + Σ |dependents|` entries are ever enqueued. -/
def traverseAux (g : Graph) : ℕ → List ℕ → List ℕ → List ℕ
  | 0, visited, _ => visited
  | _ + 1, visited, [] => visited
  | fuel + 1, visited, n :: rest =>
    if n ∈ visited ∨ n ∉ g.nodeIds then traverseAux g fuel visited rest
    else traverseAux g fuel (visited ++ [n]) (rest ++ g.dependents n)

/-- Fuel for `traverseAux`. -/
def traverseFuel (g : Graph) : ℕ :=
  ((g.nodeIds.map (fun n => (g.dependents n).length)).sum + g.nodeIds.length + 2)

/-- Modelled from the spec: the traversal order of the graph. -/
def traverseOrder (g : Graph) : List ℕ :=
  traverseAux g (traverseFuel g) [] [g.root]

/-- `_initializeNetworkRecords` (lines 172-183): the records of the NETWORK
nodes in traversal order. -/
def networkRecords (g : Graph) : List NetworkRecord :=
  ((traverseOrder g).filter (fun n => g.typeOf n = NodeType.network)).map
    g.recordOf

namespace Estimator

/-- The clamped concurrency limit (lines 161-164):
`Math.min(maximumSaturatedConnections(rtt, throughput),
options.maximumConcurrentRequests)`. -/
def maximumConcurrentRequests (o : EstimatorOptions) : ℚ :=
  min ((TcpConnection.maximumSaturatedConnections o.rtt o.throughput : ℤ) : ℚ)
    o.maximumConcurrentRequests

/-- `_initializeNetworkConnections` (lines 185-215) as a total map from
connection ids: the group of a connection id is the sublist of records with
that id (in order, as `groupBy` builds it).  Ids with an empty group never
occur in a run (every scheduled node's record is in `records`). -/
def initialConnections (o : EstimatorOptions) (records : List NetworkRecord) :
    ℕ → TcpConnection :=
  fun cid => connectionForGroup o
    (records.filter (fun r => r.connectionId = cid))

/-- The per-node auxiliary data (`_nodeAuxiliaryData`): fields not yet
assigned (`estimatedTimeElapsed`, `endTime` and, before admission,
everything) are `none`/zero and are never read before being written. -/
structure AuxData where
  startTime : Option ℚ
  timeElapsed : ℚ
  timeElapsedOvershoot : ℚ
  bytesDownloaded : ℚ
  estimatedTimeElapsed : Option ℚ
  endTime : Option ℚ
deriving Repr, DecidableEq

/-- Placeholder aux value of nodes that were never admitted. -/
def AuxData.dflt : AuxData :=
  { startTime := none, timeElapsed := 0, timeElapsedOvershoot := 0,
    bytesDownloaded := 0, estimatedTimeElapsed := none, endTime := none }

/-- Insertion-ordered `Set.add`. -/
def addList (l : List ℕ) (x : ℕ) : List ℕ := if x ∈ l then l else l ++ [x]

/-- `Set.delete`. -/
def removeList (l : List ℕ) (x : ℕ) : List ℕ := l.filter (fun y => y ≠ x)

/-- Pointwise map update. -/
def updFun {α : Type} (f : ℕ → α) (k : ℕ) (v : α) : ℕ → α :=
  fun i => if i = k then v else f i

/-- The scheduler's mutable state during `estimate()`: the four
insertion-ordered sets, the connection map (keyed by connection id: the
`Map` built at initialization returns the same object for the same id), the
auxiliary data map and the clock.  The clock is an extended rational
because an iteration with no in-flight node adds `Infinity`. -/
structure EstState where
  nodesInQueue : List ℕ
  nodesInProcess : List ℕ
  nodesCompleted : List ℕ
  connectionsInUse : List ℕ
  conns : ℕ → TcpConnection
  aux : ℕ → AuxData
  totalElapsedTime : Option ℚ

/-- Decidable equality for `Except` results, so that concrete runs can be
checked by `decide`. -/
instance exceptDecEq {e a : Type} [DecidableEq e] [DecidableEq a] :
    DecidableEq (Except e a) := fun x y =>
  match x, y with
  | .ok v, .ok w =>
    if h : v = w then isTrue (by rw [h])
    else isFalse (by intro hc; cases hc; exact h rfl)
  | .error v, .error w =>
    if h : v = w then isTrue (by rw [h])
    else isFalse (by intro hc; cases hc; exact h rfl)
  | .ok _, .error _ => isFalse (by intro hc; cases hc)
  | .error _, .ok _ => isFalse (by intro hc; cases hc)

/-- The two ways `estimate()` can throw (lines 277, 309, 380). -/
inductive EstError where
  | unsupported
  | depthExceeded
deriving Repr, DecidableEq

/-- `_enqueueNodeIfPossible(node)` (lines 228-236). -/
def enqueueNodeIfPossible (g : Graph) (s : EstState) (n : ℕ) : EstState :=
  if n ∉ s.nodesCompleted ∧ ∀ d ∈ g.deps n, d ∈ s.nodesCompleted then
    { s with nodesInQueue := addList s.nodesInQueue n }
  else s

/-- `_startNodeIfPossible(node, totalElapsedTime)` (lines 242-264): refuse
non-NETWORK nodes, a full in-process set, and a connection already in use;
otherwise move the node from the queue into the in-process set with fresh
auxiliary data. -/
def startNodeIfPossible (g : Graph) (o : EstimatorOptions) (s : EstState)
    (n : ℕ) : EstState :=
  if g.typeOf n ≠ NodeType.network then s
  else
    let cid := (g.recordOf n).connectionId
    if maximumConcurrentRequests o ≤ (s.nodesInProcess.length : ℚ) ∨
        cid ∈ s.connectionsInUse then s
    else
      { s with
        nodesInQueue := removeList s.nodesInQueue n,
        nodesInProcess := addList s.nodesInProcess n,
        aux := updFun s.aux n
          { startTime := s.totalElapsedTime, timeElapsed := 0,
            timeElapsedOvershoot := 0, bytesDownloaded := 0,
            estimatedTimeElapsed := none, endTime := none },
        connectionsInUse := addList s.connectionsInUse cid }

/-- `_updateNetworkCapacity()` (lines 266-270): every connection in use gets
`throughput / nodesInProcess.size`.  (The division by a zero-sized set
cannot occur: a connection is in use exactly while its node is in
process.) -/
def updateNetworkCapacity (o : EstimatorOptions) (s : EstState) : EstState :=
  { s with
    conns := fun cid =>
      if cid ∈ s.connectionsInUse then
        (s.conns cid).setThroughput (o.throughput / (s.nodesInProcess.length : ℚ))
      else s.conns cid }

/-- `_estimateTimeRemaining(node)` (lines 276-289): query the node's
connection without a deadline, add the accumulated overshoot, and store the
estimate on the node's auxiliary data. -/
def estimateTimeRemaining (g : Graph) (s : EstState) (n : ℕ) :
    Except EstError (ℚ × EstState) :=
  if g.typeOf n ≠ NodeType.network then .error .unsupported
  else
    let a := s.aux n
    let cid := (g.recordOf n).connectionId
    let calculation := (s.conns cid).calculateTimeToDownload
      ((g.recordOf n).transferSize - a.bytesDownloaded) a.timeElapsed none
    let est := calculation.timeElapsed + a.timeElapsedOvershoot
    .ok (est,
      { s with aux := updFun s.aux n { a with estimatedTimeElapsed := some est } })

/-- `_findNextNodeCompletionTime()` (lines 294-301): fold
`Math.min(minimumTime, estimate)` over the in-process nodes, starting from
`Infinity`. -/
def findNextLoop (g : Graph) :
    List ℕ → Option ℚ → EstState → Except EstError (Option ℚ × EstState)
  | [], m, s => .ok (m, s)
  | n :: rest, m, s =>
    match estimateTimeRemaining g s n with
    | .error e => .error e
    | .ok (est, s1) => findNextLoop g rest (emin m (some est)) s1

/-- `_updateProgressMadeInTimePeriod(node, timePeriodLength,
totalElapsedTime)` (lines 308-339).  The second query carries the deadline
`timePeriodLength - overshoot`; its congestion window is committed onto the
connection.  A node whose stored estimate strictly equals the step length
is a finisher: warm the connection, release it, complete the node and
enqueue its dependents; otherwise accumulate partial progress.  In the
partial branch `tpl.getD 0` can only be exercised with `tpl = some _`:
the update loop only runs over a nonempty in-process set, whose minimum
estimate is finite. -/
def updateProgress (g : Graph) (tpl : Option ℚ) (s : EstState) (n : ℕ) :
    Except EstError EstState :=
  if g.typeOf n ≠ NodeType.network then .error .unsupported
  else
    let a := s.aux n
    let cid := (g.recordOf n).connectionId
    let calculation := (s.conns cid).calculateTimeToDownload
      ((g.recordOf n).transferSize - a.bytesDownloaded) a.timeElapsed
      (esub tpl a.timeElapsedOvershoot)
    let conns1 := updFun s.conns cid
      ((s.conns cid).setCongestionWindow calculation.congestionWindow)
    if eeq a.estimatedTimeElapsed tpl then
      let s1 :=
        { s with
          conns := updFun conns1 cid ((conns1 cid).setWarmed true),
          connectionsInUse := removeList s.connectionsInUse cid,
          nodesCompleted := addList s.nodesCompleted n,
          nodesInProcess := removeList s.nodesInProcess n,
          aux := updFun s.aux n { a with endTime := s.totalElapsedTime } }
      .ok ((g.dependents n).foldl (fun st d => enqueueNodeIfPossible g st d) s1)
    else
      .ok { s with
        conns := conns1,
        aux := updFun s.aux n
          { a with
            timeElapsed := a.timeElapsed + calculation.timeElapsed,
            timeElapsedOvershoot :=
              a.timeElapsedOvershoot + calculation.timeElapsed - tpl.getD 0,
            bytesDownloaded := a.bytesDownloaded + calculation.bytesDownloaded } }

/-- The progress-update loop of `estimate()` (lines 371-377) over the
in-process snapshot. -/
def updateLoop (g : Graph) (tpl : Option ℚ) :
    EstState → List ℕ → Except EstError EstState
  | s, [] => .ok s
  | s, n :: rest =>
    match updateProgress g tpl s n with
    | .error e => .error e
    | .ok s1 => updateLoop g tpl s1 rest

/-- One iteration of the main loop of `estimate()` (lines 355-378): admit
every queued node, rebalance capacity, find the next completion time, add it
to the clock, then update every in-process node.  The `for`-loops iterate
the live sets, but each call only ever deletes the node it is visiting, so
folding over the entry snapshot is equivalent. -/
def estBody (g : Graph) (o : EstimatorOptions) (s : EstState) :
    Except EstError EstState :=
  let s1 := s.nodesInQueue.foldl (fun st n => startNodeIfPossible g o st n) s
  let s2 := updateNetworkCapacity o s1
  match findNextLoop g s2.nodesInProcess none s2 with
  | .error e => .error e
  | .ok (minTime, s3) =>
    let s4 := { s3 with totalElapsedTime := eadd s3.totalElapsedTime minTime }
    updateLoop g minTime s4 s4.nodesInProcess

/-- The main loop with its depth guard: the source increments `depth` each
iteration and throws once `depth > 10000`, i.e. after the 10001st body.
`estLoop` with fuel `f` runs at most `f + 1` bodies before throwing. -/
def estLoop (g : Graph) (o : EstimatorOptions) :
    ℕ → EstState → Except EstError (Option ℚ)
  | fuel, s =>
    if s.nodesInQueue.isEmpty && s.nodesInProcess.isEmpty then
      .ok s.totalElapsedTime
    else
      match estBody g o s with
      | .error e => .error e
      | .ok s1 =>
        match fuel with
        | 0 => .error .depthExceeded
        | fuel + 1 => estLoop g o fuel s1

/-- The initial state of `estimate()` (lines 341-351). -/
def initState (g : Graph) (o : EstimatorOptions) : EstState :=
  { nodesInQueue := [g.root], nodesInProcess := [], nodesCompleted := [],
    connectionsInUse := [],
    conns := initialConnections o (networkRecords g),
    aux := fun _ => AuxData.dflt,
    totalElapsedTime := some 0 }

/-- `estimate()` (lines 341-385). -/
def estimate (g : Graph) (o : EstimatorOptions) :
    Except EstError (Option ℚ) :=
  estLoop g o 10000 (initState g o)

/-! ### Proof-support definitions over the scheduler -/

/-- The connection id of a node's record. -/
def cidOf (g : Graph) (n : ℕ) : ℕ := (g.recordOf n).connectionId

/-- The full-transfer estimate of an in-process node, as computed by
`_estimateTimeRemaining`: the no-deadline query plus the overshoot. -/
def estOf (g : Graph) (s : EstState) (n : ℕ) : ℚ :=
  ((s.conns (cidOf g n)).calculateTimeToDownload
      ((g.recordOf n).transferSize - (s.aux n).bytesDownloaded)
      (s.aux n).timeElapsed none).timeElapsed +
    (s.aux n).timeElapsedOvershoot

/-- The deadline query of `_updateProgressMadeInTimePeriod`. -/
def calcDeadline (g : Graph) (tpl : Option ℚ) (s : EstState) (n : ℕ) :
    TcpConnection.CalcResult :=
  (s.conns (cidOf g n)).calculateTimeToDownload
    ((g.recordOf n).transferSize - (s.aux n).bytesDownloaded)
    (s.aux n).timeElapsed (esub tpl (s.aux n).timeElapsedOvershoot)

/-- The state after `_estimateTimeRemaining` stores estimate `e` on node
`n`. -/
def setEst (s : EstState) (n : ℕ) (e : ℚ) : EstState :=
  { s with
    aux := updFun s.aux n
      { startTime := (s.aux n).startTime,
        timeElapsed := (s.aux n).timeElapsed,
        timeElapsedOvershoot := (s.aux n).timeElapsedOvershoot,
        bytesDownloaded := (s.aux n).bytesDownloaded,
        estimatedTimeElapsed := some e,
        endTime := (s.aux n).endTime } }

/-- The states entered by the main loop of `estimate()`: reflexive,
transitive closure of successful loop bodies. -/
inductive Reaches (g : Graph) (o : EstimatorOptions) : EstState → EstState → Prop
  | refl (s : EstState) : Reaches g o s s
  | step {s s1 s2 : EstState} :
      Reaches g o s s1 → estBody g o s1 = .ok s2 → Reaches g o s s2

/-- The scheduler's structural invariant: every in-process node is a
NETWORK node, the in-process set has no duplicates, each in-process node's
connection is marked in use, and no two in-process nodes share a
connection. -/
structure SchedInv (g : Graph) (s : EstState) : Prop where
  net : ∀ n ∈ s.nodesInProcess, g.typeOf n = NodeType.network
  nodup : s.nodesInProcess.Nodup
  inUse : ∀ n ∈ s.nodesInProcess, cidOf g n ∈ s.connectionsInUse
  distinct : s.nodesInProcess.Pairwise (fun m n => cidOf g m ≠ cidOf g n)

/-- The concurrency-cap invariant. -/
def CapInv (o : EstimatorOptions) (s : EstState) : Prop :=
  (s.nodesInProcess.length : ℚ) ≤ maximumConcurrentRequests o

/-- Nonnegativity of every node's accumulated overshoot. -/
def OvershootInv (s : EstState) : Prop :=
  ∀ k, 0 ≤ (s.aux k).timeElapsedOvershoot

/-! ### Concrete graphs used by counterexamples and witnesses -/

/-- A two-node dependency cycle through the root: `0 → 1 → 0` (each node is
both the dependent and the dependency of the other). -/
def cycleGraph : Graph :=
  { nodeIds := [0, 1], root := 0,
    typeOf := fun _ => NodeType.network,
    recordOf := fun n =>
      if n = 0 then
        { connectionId := 1, transferSize := 0, schemeIsHttps := true,
          timing := none }
      else
        { connectionId := 2, transferSize := 0, schemeIsHttps := true,
          timing := none },
    deps := fun n => if n = 0 then [1] else [0],
    dependents := fun n => if n = 0 then [1] else [0] }

/-- A single non-NETWORK root. -/
def cpuRootGraph : Graph :=
  { nodeIds := [0], root := 0,
    typeOf := fun _ => NodeType.cpu,
    recordOf := fun _ =>
      { connectionId := 1, transferSize := 0, schemeIsHttps := true,
        timing := none },
    deps := fun _ => [], dependents := fun _ => [] }

/-- An http record with a 1 ms measured response time. -/
def rec9 (cid : ℕ) (ts : ℚ) : NetworkRecord :=
  { connectionId := cid, transferSize := ts, schemeIsHttps := false,
    timing := some { sendEnd := 0, receiveHeadersEnd := 1 } }

/-- The throughput-monotonicity counterexample graph: a TTFB-bound chain
`0 → 1 → 2 → 3` gating the tiny critical node `6` (connection 9), a
mid-size transfer `4` gating the large transfer `5` (also connection 9),
and a TTFB-bound tail `7` behind `6`.  With doubled throughput, `4`
finishes before the chain, so `5` grabs connection 9 first and delays `6`
and its tail. -/
def g9 : Graph :=
  { nodeIds := [0, 1, 2, 3, 4, 5, 6, 7], root := 0,
    typeOf := fun _ => NodeType.network,
    recordOf := fun n =>
      match n with
      | 0 => rec9 100 0
      | 1 => rec9 201 0
      | 2 => rec9 202 0
      | 3 => rec9 203 0
      | 4 => rec9 300 100250
      | 5 => rec9 9 50125
      | 6 => rec9 9 0
      | _ => rec9 400 0,
    deps := fun n =>
      match n with
      | 0 => [] | 1 => [0] | 2 => [1] | 3 => [2]
      | 4 => [0] | 5 => [4] | 6 => [3] | _ => [6],
    dependents := fun n =>
      match n with
      | 0 => [1, 4] | 1 => [2] | 2 => [3] | 3 => [6]
      | 4 => [5] | 5 => [] | 6 => [7] | _ => [] }

/-- Options for the monotonicity counterexample: rtt 200 ms, throughput
1,000,000 bits/sec, at most 2 concurrent requests. -/
def o9 : EstimatorOptions :=
  { rtt := 200, throughput := 1000000, defaultResponseTime := 30,
    maximumConcurrentRequests := 2 }

end Estimator


/-! ## Lemmas and claim theorems -/

namespace TcpConnection

/-- One loop iteration drops the ceiling of `bytesRemaining` below any
sufficient fuel bound. -/
lemma dlStep_ceil_lt {mc cw br : ℚ} (hbr : 0 < br) :
    (⌈br - max (min mc (cw * 2)) 1 * TCP_SEGMENT_SIZE⌉).toNat < (⌈br⌉).toNat := by
  have h1 : (1 : ℚ) ≤ max (min mc (cw * 2)) 1 := le_max_right _ _
  have h2 : (1460 : ℚ) ≤ max (min mc (cw * 2)) 1 * TCP_SEGMENT_SIZE := by
    have hseg : (TCP_SEGMENT_SIZE : ℚ) = 1460 := rfl
    nlinarith [h1, hseg]
  have hc1 : (0 : ℤ) < ⌈br⌉ := Int.ceil_pos.mpr hbr
  have hc2 : ⌈br - max (min mc (cw * 2)) 1 * TCP_SEGMENT_SIZE⌉ < ⌈br⌉ := by
    have hle : br - max (min mc (cw * 2)) 1 * TCP_SEGMENT_SIZE ≤ br - 1460 := by
      linarith
    calc ⌈br - max (min mc (cw * 2)) 1 * TCP_SEGMENT_SIZE⌉
        ≤ ⌈br - 1460⌉ := Int.ceil_le_ceil hle
      _ = ⌈br - ((1460 : ℤ) : ℚ)⌉ := by norm_num
      _ = ⌈br⌉ - 1460 := by rw [Int.ceil_sub_int]
      _ < ⌈br⌉ := by omega
  exact (Int.toNat_lt_toNat hc1).mpr hc2

/-- Any two sufficient fuels give the same result: the loop exits before
either runs out. -/
lemma dlLoopF_congr (mc rtt : ℚ) (maxDl : Option ℚ) :
    ∀ n m : ℕ, ∀ (rt : ℤ) (dl cw bd br : ℚ),
      (⌈br⌉).toNat < n → (⌈br⌉).toNat < m →
      dlLoopF mc rtt maxDl n rt dl cw bd br =
        dlLoopF mc rtt maxDl m rt dl cw bd br := by
  intro n
  induction n with
  | zero => intro m rt dl cw bd br hn _; omega
  | succ n ih =>
    intro m rt dl cw bd br hn hm
    match m with
    | 0 => omega
    | m + 1 =>
      simp only [dlLoopF]
      by_cases hg : 0 < br ∧ dlLe dl maxDl = true
      · simp only [if_pos hg]
        have hlt := @dlStep_ceil_lt mc cw _ hg.1
        refine ih m (rt + 1) (dl + rtt) (max (min mc (cw * 2)) 1)
          (bd + max (min mc (cw * 2)) 1 * TCP_SEGMENT_SIZE)
          (br - max (min mc (cw * 2)) 1 * TCP_SEGMENT_SIZE) ?_ ?_
        · omega
        · omega
      · simp only [if_neg hg]

/-- `dlLoop` satisfies the defining equation of the source `while` loop. -/
lemma dlLoop_eq (mc rtt : ℚ) (maxDl : Option ℚ) (rt : ℤ) (dl cw bd br : ℚ) :
    dlLoop mc rtt maxDl rt dl cw bd br =
      if 0 < br ∧ dlLe dl maxDl = true then
        dlLoop mc rtt maxDl (rt + 1) (dl + rtt)
          (max (min mc (cw * 2)) 1)
          (bd + max (min mc (cw * 2)) 1 * TCP_SEGMENT_SIZE)
          (br - max (min mc (cw * 2)) 1 * TCP_SEGMENT_SIZE)
      else
        (rt, dl, cw, bd) := by
  by_cases hg : 0 < br ∧ dlLe dl maxDl = true
  · rw [if_pos hg]
    have hstep : dlLoop mc rtt maxDl rt dl cw bd br =
        dlLoopF mc rtt maxDl ((⌈br⌉).toNat) (rt + 1) (dl + rtt)
          (max (min mc (cw * 2)) 1)
          (bd + max (min mc (cw * 2)) 1 * TCP_SEGMENT_SIZE)
          (br - max (min mc (cw * 2)) 1 * TCP_SEGMENT_SIZE) := by
      show dlLoopF mc rtt maxDl ((⌈br⌉).toNat + 1) rt dl cw bd br = _
      simp only [dlLoopF, if_pos hg]
    rw [hstep]
    exact dlLoopF_congr mc rtt maxDl _ _ _ _ _ _ _
      (dlStep_ceil_lt hg.1) (Nat.lt_succ_self _)
  · rw [if_neg hg]
    show dlLoopF mc rtt maxDl ((⌈br⌉).toNat + 1) rt dl cw bd br = _
    simp only [dlLoopF, if_neg hg]

/-- The code's `timeToFirstByte` expression agrees with the spec's
formula. -/
lemma code_ttfb_eq_spec (c : TcpConnection) :
    (if c.warmed then c.rtt / 2
     else c.rtt / 2 + c.rtt / 2 + c.rtt / 2 + (if c.ssl then c.rtt else 0)) +
      c.responseTime + c.rtt / 2 = specTimeToFirstByte c := by
  unfold specTimeToFirstByte
  by_cases hw : c.warmed <;> by_cases hs : c.ssl <;> simp [hw, hs] <;> ring

/-- The download loop never decreases the elapsed download time when the
round-trip time is nonnegative. -/
lemma dlLoopF_dl_ge (mc rtt : ℚ) (maxDl : Option ℚ) (hr : 0 ≤ rtt) :
    ∀ (n : ℕ) (rt : ℤ) (dl cw bd br : ℚ),
      dl ≤ (dlLoopF mc rtt maxDl n rt dl cw bd br).2.1 := by
  intro n
  induction n with
  | zero => intro rt dl cw bd br; exact le_refl _
  | succ n ih =>
    intro rt dl cw bd br
    simp only [dlLoopF]
    by_cases hg : 0 < br ∧ dlLe dl maxDl = true
    · rw [if_pos hg]
      calc dl ≤ dl + rtt := by linarith
        _ ≤ _ := ih _ _ _ _ _
    · rw [if_neg hg]

/-- `dlLoop` never decreases the elapsed download time. -/
lemma dlLoop_dl_ge (mc rtt : ℚ) (maxDl : Option ℚ) (hr : 0 ≤ rtt)
    (rt : ℤ) (dl cw bd br : ℚ) :
    dl ≤ (dlLoop mc rtt maxDl rt dl cw bd br).2.1 :=
  dlLoopF_dl_ge mc rtt maxDl hr _ _ _ _ _ _

/-- C1: for every connection and every call of `calculateTimeToDownload`,
the time to first byte is the spec's handshake cost (`1.5 × rtt` plus `rtt`
if SSL when cold, `rtt / 2` when warm) plus the server response time plus
`rtt / 2`; the TTFB charged by the call is `max (TTFB - timeAlreadyElapsed) 0`
and it is included in the returned `timeElapsed` (the rest `d` is the
nonnegative download-phase time). -/
theorem calculate_charges_residual_ttfb (c : TcpConnection) (b te : ℚ)
    (mt : Option ℚ) (hr : 0 ≤ c.rtt) :
    ∃ d : ℚ, 0 ≤ d ∧
      (calculateTimeToDownload c b te mt).timeElapsed =
        max (specTimeToFirstByte c - te) 0 + d := by
  simp only [calculateTimeToDownload]
  rw [code_ttfb_eq_spec c]
  exact ⟨_, dlLoop_dl_ge _ _ _ hr _ 0 _ _ _, rfl⟩

/-- C1 witness. -/
theorem calculate_charges_residual_ttfb_witness :
    0 ≤ (mk0 100 1638400 0 true).rtt ∧
      ∃ d : ℚ, 0 ≤ d ∧
        (calculateTimeToDownload (mk0 100 1638400 0 true) 14600 0 none).timeElapsed =
          max (specTimeToFirstByte (mk0 100 1638400 0 true) - 0) 0 + d :=
  ⟨by decide,
    calculate_charges_residual_ttfb (mk0 100 1638400 0 true) 14600 0 none (by decide)⟩

/-- C2 counterexample: the connection-model scenario with `rtt = 100`,
`throughput = 1638400`, `ssl = true`, `responseTime = 0`, not warmed,
`calculateTimeToDownload(0)` returns `timeElapsed = 300`, not `250` as
claimed. -/
theorem scenario_zero_bytes_not_250 :
    (calculateTimeToDownload (mk0 100 1638400 0 true) 0 0 none).timeElapsed ≠ 250 ∧
      (calculateTimeToDownload (mk0 100 1638400 0 true) 0 0 none).timeElapsed = 300 := by
  constructor
  · decide
  · decide

/-- C2 amended: the scenario returns `timeElapsed = 300`
(= 1.5 × rtt handshake + rtt SSL + 0.5 × rtt response = 150 + 100 + 0 + 50),
with zero bytes downloaded, three round trips, and the congestion window
still at 10. -/
theorem scenario_zero_bytes_returns_300 :
    calculateTimeToDownload (mk0 100 1638400 0 true) 0 0 none =
      { roundTrips := 3, timeElapsed := 300, bytesDownloaded := 0,
        congestionWindow := 10 } := by
  decide

/-- C4: the growth loop runs while bytes remain and the download-phase
elapsed time is within the deadline minus the residual TTFB; each iteration
advances elapsed time by one rtt, updates the window to
`max (min maximumCongestionWindow (window × 2)) 1` and credits
`window × TCP_SEGMENT_SIZE` bytes; the returned `bytesDownloaded` is clamped
to `bytesToDownload`; and a call with `bytesToDownload = 0` downloads zero
bytes in exactly the residual TTFB. -/
theorem growth_loop_clamp_and_zero_bytes :
    (∀ (mc rtt : ℚ) (maxDl : Option ℚ) (rt : ℤ) (dl cw bd br : ℚ),
        0 < br → dlLe dl maxDl = true →
        dlLoop mc rtt maxDl rt dl cw bd br =
          dlLoop mc rtt maxDl (rt + 1) (dl + rtt)
            (max (min mc (cw * 2)) 1)
            (bd + max (min mc (cw * 2)) 1 * TCP_SEGMENT_SIZE)
            (br - max (min mc (cw * 2)) 1 * TCP_SEGMENT_SIZE)) ∧
    (∀ (c : TcpConnection) (b te : ℚ) (mt : Option ℚ),
        (calculateTimeToDownload c b te mt).bytesDownloaded ≤ b) ∧
    (∀ (c : TcpConnection) (te : ℚ) (mt : Option ℚ),
        0 ≤ c.rtt → 0 ≤ c.availableThroughput → 0 ≤ c.congestionWindow →
        (calculateTimeToDownload c 0 te mt).bytesDownloaded = 0 ∧
        (calculateTimeToDownload c 0 te mt).timeElapsed =
          max (specTimeToFirstByte c - te) 0) := by
  refine ⟨?_, ?_, ?_⟩
  · intro mc rtt maxDl rt dl cw bd br hbr hdl
    rw [dlLoop_eq mc rtt maxDl rt dl cw bd br, if_pos ⟨hbr, hdl⟩]
  · intro c b te mt
    simp only [calculateTimeToDownload]
    exact min_le_right _ _
  · intro c te mt hr ht hcw
    have hmc : (0 : ℚ) ≤ ((computeMaximumCongestionWindowInSegments c : ℤ) : ℚ) := by
      have h0 : (0 : ℚ) ≤ c.availableThroughput / 8 * (c.rtt / 1000) / TCP_SEGMENT_SIZE := by
        have hseg : (0 : ℚ) < TCP_SEGMENT_SIZE := by norm_num [TCP_SEGMENT_SIZE]
        positivity
      have := Int.floor_nonneg.mpr h0
      exact_mod_cast this
    have hcw0 : (0 : ℚ) ≤ min c.congestionWindow
        ((computeMaximumCongestionWindowInSegments c : ℤ) : ℚ) :=
      le_min hcw hmc
    simp only [calculateTimeToDownload]
    rw [code_ttfb_eq_spec c]
    set bd0 : ℚ := if 0 < max (specTimeToFirstByte c - te) 0 then
      min c.congestionWindow
          ((computeMaximumCongestionWindowInSegments c : ℤ) : ℚ) * TCP_SEGMENT_SIZE
      else 0 with hbd0
    have hbd0nn : 0 ≤ bd0 := by
      rw [hbd0]
      split
      · have hseg : (0 : ℚ) ≤ TCP_SEGMENT_SIZE := by norm_num [TCP_SEGMENT_SIZE]
        exact mul_nonneg hcw0 hseg
      · exact le_refl 0
    have hloop : dlLoop ((computeMaximumCongestionWindowInSegments c : ℤ) : ℚ) c.rtt
        (esub mt (max (specTimeToFirstByte c - te) 0))
        (if 0 < max (specTimeToFirstByte c - te) 0 then
          ⌈(if c.warmed then c.rtt / 2
            else c.rtt / 2 + c.rtt / 2 + c.rtt / 2 + (if c.ssl then c.rtt else 0)) /
              c.rtt⌉ else 0)
        0 (min c.congestionWindow
            ((computeMaximumCongestionWindowInSegments c : ℤ) : ℚ))
        bd0 (0 - bd0) =
        (if 0 < max (specTimeToFirstByte c - te) 0 then
          ⌈(if c.warmed then c.rtt / 2
            else c.rtt / 2 + c.rtt / 2 + c.rtt / 2 + (if c.ssl then c.rtt else 0)) /
              c.rtt⌉ else 0, 0,
          min c.congestionWindow
            ((computeMaximumCongestionWindowInSegments c : ℤ) : ℚ), bd0) := by
      rw [dlLoop_eq]
      rw [if_neg]
      intro hcon
      have : (0 : ℚ) < 0 - bd0 := hcon.1
      linarith
    rw [hloop]
    constructor
    · simpa using min_eq_right hbd0nn
    · simp

/-- C4 witness. -/
theorem growth_loop_clamp_and_zero_bytes_witness :
    (0 : ℚ) < 2920 ∧ dlLe 0 (none : Option ℚ) = true ∧
    dlLoop 10 100 none 0 0 5 0 2920 =
      dlLoop 10 100 none 1 100 10 14600 (2920 - 14600) ∧
    (0 : ℚ) ≤ (mk0 100 1638400 0 true).rtt ∧
    (0 : ℚ) ≤ (mk0 100 1638400 0 true).availableThroughput ∧
    (0 : ℚ) ≤ (mk0 100 1638400 0 true).congestionWindow ∧
    (calculateTimeToDownload (mk0 100 1638400 0 true) 0 7 none).bytesDownloaded = 0 ∧
    (calculateTimeToDownload (mk0 100 1638400 0 true) 0 7 none).timeElapsed =
      max (specTimeToFirstByte (mk0 100 1638400 0 true) - 7) 0 := by
  refine ⟨by decide, by decide, ?_, by decide, by decide, by decide, ?_, ?_⟩
  · have h := growth_loop_clamp_and_zero_bytes.1 10 100 none 0 0 5 0 2920
      (by decide) (by decide)
    simpa using h
  · exact (growth_loop_clamp_and_zero_bytes.2.2 (mk0 100 1638400 0 true) 7 none
      (by decide) (by decide) (by decide)).1
  · exact (growth_loop_clamp_and_zero_bytes.2.2 (mk0 100 1638400 0 true) 7 none
      (by decide) (by decide) (by decide)).2

/-- C6: `calculateTimeToDownload` leaves every field of the connection
unchanged, and the three setters update exactly their own field. -/
theorem query_does_not_mutate_connection :
    (∀ (c : TcpConnection) (b te : ℚ) (mt : Option ℚ),
        (calculateTimeToDownloadS c b te mt).2 = c) ∧
    (∀ (c : TcpConnection) (t : ℚ), setThroughput c t =
      { warmed := c.warmed, ssl := c.ssl, rtt := c.rtt,
        availableThroughput := t, responseTime := c.responseTime,
        congestionWindow := c.congestionWindow }) ∧
    (∀ (c : TcpConnection) (w : ℚ), setCongestionWindow c w =
      { warmed := c.warmed, ssl := c.ssl, rtt := c.rtt,
        availableThroughput := c.availableThroughput,
        responseTime := c.responseTime, congestionWindow := w }) ∧
    (∀ (c : TcpConnection) (b : Bool), setWarmed c b =
      { warmed := b, ssl := c.ssl, rtt := c.rtt,
        availableThroughput := c.availableThroughput,
        responseTime := c.responseTime, congestionWindow := c.congestionWindow }) :=
  ⟨fun _ _ _ _ => rfl, fun _ _ => rfl, fun _ _ => rfl, fun _ _ => rfl⟩

end TcpConnection

namespace Estimator

lemma emin_none_right (a : Option ℚ) : emin a none = a := by
  cases a <;> rfl

lemma emin_attained (a b : Option ℚ) (v : ℚ) (h : emin a b = some v) :
    a = some v ∨ b = some v := by
  match a, b with
  | none, b => right; exact h
  | some x, none => left; exact h
  | some x, some y =>
    simp only [emin, Option.some.injEq] at h
    rcases min_cases x y with ⟨he, _⟩ | ⟨he, _⟩
    · left; rw [← h, he]
    · right; rw [← h, he]

lemma emin_le_left (a b : Option ℚ) (v x : ℚ) (h : emin a b = some v)
    (ha : a = some x) : v ≤ x := by
  subst ha
  match b with
  | none => simp only [emin, Option.some.injEq] at h; exact le_of_eq h.symm
  | some y =>
    simp only [emin, Option.some.injEq] at h
    rw [← h]; exact min_le_left _ _

lemma emin_le_right (a b : Option ℚ) (v y : ℚ) (h : emin a b = some v)
    (hb : b = some y) : v ≤ y := by
  subst hb
  match a with
  | none => simp only [emin, Option.some.injEq] at h; exact le_of_eq h.symm
  | some x =>
    simp only [emin, Option.some.injEq] at h
    rw [← h]; exact min_le_right _ _

lemma emin_some_left (x : ℚ) (b : Option ℚ) :
    ∃ y, emin (some x) b = some y ∧ y ≤ x ∧ ∀ w, b = some w → y ≤ w := by
  match b with
  | none => exact ⟨x, rfl, le_refl x, by simp⟩
  | some z =>
    refine ⟨min x z, rfl, min_le_left _ _, ?_⟩
    intro w hw
    injection hw with hw
    rw [← hw]; exact min_le_right _ _

lemma emin_right_bound (acc : Option ℚ) (w v : ℚ)
    (h : ∀ x, emin acc (some w) = some x → v ≤ x) : v ≤ w := by
  match acc with
  | none => exact h w rfl
  | some x => exact le_trans (h (min x w) rfl) (min_le_right _ _)

/-- Characterisation of the `reduce` over a record group: a finite result is
attained by some record and is a lower bound of every record's effective
response time. -/
lemma emin_fold_spec (rs : List NetworkRecord) :
    ∀ (acc : Option ℚ) (v : ℚ),
      rs.foldl (fun m r => emin m (getResponseTime r)) acc = some v →
      (acc = some v ∨ ∃ r ∈ rs, getResponseTime r = some v) ∧
      (∀ x, acc = some x → v ≤ x) ∧
      (∀ r ∈ rs, ∀ w, getResponseTime r = some w → v ≤ w) := by
  induction rs with
  | nil =>
    intro acc v h
    simp only [List.foldl_nil] at h
    refine ⟨Or.inl h, ?_, by simp⟩
    intro x hx
    rw [hx] at h
    injection h with h2
    exact le_of_eq h2.symm
  | cons r rs ih =>
    intro acc v h
    simp only [List.foldl_cons] at h
    obtain ⟨hat, hacc, hrest⟩ := ih (emin acc (getResponseTime r)) v h
    refine ⟨?_, ?_, ?_⟩
    · rcases hat with hv | ⟨r', hr', hv⟩
      · rcases emin_attained _ _ _ hv with h1 | h1
        · exact Or.inl h1
        · exact Or.inr ⟨r, List.mem_cons_self _ _, h1⟩
      · exact Or.inr ⟨r', List.mem_cons_of_mem _ hr', hv⟩
    · intro x hx
      subst hx
      obtain ⟨y, hy, hyx, _⟩ := emin_some_left x (getResponseTime r)
      exact le_trans (hacc y hy) hyx
    · intro r' hr' w hw
      rcases List.mem_cons.mp hr' with hr' | hr'
      · subst hr'
        rw [hw] at hacc
        exact emin_right_bound acc w v hacc
      · exact hrest r' hr' w hw

lemma emin_fold_all_none (rs : List NetworkRecord)
    (h : ∀ r ∈ rs, getResponseTime r = none) :
    ∀ acc : Option ℚ,
      rs.foldl (fun m r => emin m (getResponseTime r)) acc = acc := by
  induction rs with
  | nil => intro acc; rfl
  | cons r rs ih =>
    intro acc
    simp only [List.foldl_cons]
    rw [h r (List.mem_cons_self _ _), emin_none_right]
    exact ih (fun r hr => h r (List.mem_cons_of_mem _ hr)) acc

/-- C3 counterexample: `zeroTimingRecord` measures a finite response time of
exactly `0`, yet the connection built for its group carries the configured
default (`30`), not `0`: the JavaScript `|| Infinity` treats the falsy `0`
as missing. -/
theorem zero_measured_response_time_not_used_as_is :
    (zeroTimingRecord.timing.map
        (fun t => t.receiveHeadersEnd - t.sendEnd)) = some 0 ∧
    (connectionForGroup defaultOptions [zeroTimingRecord]).responseTime = 30 ∧
    (connectionForGroup defaultOptions [zeroTimingRecord]).responseTime ≠ 0 := by
  refine ⟨by decide, by decide, by decide⟩

/-- C3 amended: a record with no timing, or whose measured response time
`receiveHeadersEnd - sendEnd` equals `0` (falsy in JavaScript), contributes
`Infinity`; a nonzero measured time is used as is.  The group's response
time is the default exactly when every record's effective response time is
`Infinity`; otherwise it is the finite minimum, which is attained by some
record and bounds every record's effective response time from below. -/
theorem group_response_time_min_with_zero_as_missing :
    (∀ (r : NetworkRecord), r.timing = none → getResponseTime r = none) ∧
    (∀ (r : NetworkRecord) (t : Timing), r.timing = some t →
        t.receiveHeadersEnd - t.sendEnd = 0 → getResponseTime r = none) ∧
    (∀ (r : NetworkRecord) (t : Timing), r.timing = some t →
        t.receiveHeadersEnd - t.sendEnd ≠ 0 →
        getResponseTime r = some (t.receiveHeadersEnd - t.sendEnd)) ∧
    (∀ (d : ℚ) (rs : List NetworkRecord),
        (∀ r ∈ rs, getResponseTime r = none) →
        groupResponseTime d rs = d) ∧
    (∀ (d : ℚ) (rs : List NetworkRecord) (v : ℚ),
        rs.foldl (fun m r => emin m (getResponseTime r)) none = some v →
        groupResponseTime d rs = v ∧
          (∃ r ∈ rs, getResponseTime r = some v) ∧
          (∀ r ∈ rs, ∀ w, getResponseTime r = some w → v ≤ w)) := by
  refine ⟨?_, ?_, ?_, ?_, ?_⟩
  · intro r h; simp [getResponseTime, h]
  · intro r t h hz; simp [getResponseTime, h, hz]
  · intro r t h hz; simp [getResponseTime, h, hz]
  · intro d rs h
    unfold groupResponseTime
    rw [emin_fold_all_none rs h none]
  · intro d rs v h
    obtain ⟨hat, _, hbound⟩ := emin_fold_spec rs none v h
    refine ⟨?_, ?_, hbound⟩
    · unfold groupResponseTime
      rw [h]
    · rcases hat with hx | hx
      · exact absurd hx (by simp)
      · exact hx

/-- C3 amended witness. -/
theorem group_response_time_min_witness :
    (zeroTimingRecord.timing = some { sendEnd := 5, receiveHeadersEnd := 5 } ∧
      (5 : ℚ) - 5 = 0 ∧ getResponseTime zeroTimingRecord = none) ∧
    ((∀ r ∈ [zeroTimingRecord], getResponseTime r = none) ∧
      groupResponseTime 30 [zeroTimingRecord] = 30) := by
  constructor
  · refine ⟨by decide, by decide, ?_⟩
    exact group_response_time_min_with_zero_as_missing.2.1 zeroTimingRecord
      { sendEnd := 5, receiveHeadersEnd := 5 } (by decide) (by decide)
  · refine ⟨by decide, ?_⟩
    exact group_response_time_min_with_zero_as_missing.2.2.2.1 30
      [zeroTimingRecord] (by decide)

/-! ### Set and map lemmas -/

lemma mem_addList {l : List ℕ} {x y : ℕ} : y ∈ addList l x ↔ y ∈ l ∨ y = x := by
  unfold addList
  split
  · constructor
    · exact Or.inl
    · rintro (h | rfl) <;> assumption
  · simp [List.mem_append]

lemma mem_removeList {l : List ℕ} {x y : ℕ} :
    y ∈ removeList l x ↔ y ∈ l ∧ y ≠ x := by
  unfold removeList
  simp

lemma nodup_addList {l : List ℕ} (x : ℕ) (h : l.Nodup) : (addList l x).Nodup := by
  unfold addList
  split
  · exact h
  · next hx => simpa [List.nodup_append] using ⟨h, hx⟩

lemma nodup_removeList {l : List ℕ} (x : ℕ) (h : l.Nodup) :
    (removeList l x).Nodup := h.filter _

lemma length_addList_of_not_mem {l : List ℕ} {x : ℕ} (h : x ∉ l) :
    (addList l x).length = l.length + 1 := by
  unfold addList
  rw [if_neg h]
  simp

lemma length_removeList_le (l : List ℕ) (x : ℕ) :
    (removeList l x).length ≤ l.length :=
  List.length_filter_le _ _

lemma removeList_sublist (l : List ℕ) (x : ℕ) : (removeList l x).Sublist l :=
  List.filter_sublist _

lemma pairwise_addList {R : ℕ → ℕ → Prop} {l : List ℕ} {x : ℕ}
    (h : l.Pairwise R) (hx : ∀ y ∈ l, R y x) : (addList l x).Pairwise R := by
  unfold addList
  split
  · exact h
  · rw [List.pairwise_append]
    exact ⟨h, List.pairwise_singleton _ _, by simpa using hx⟩

lemma updFun_same {α : Type} (f : ℕ → α) (k : ℕ) (v : α) : updFun f k v k = v := by
  simp [updFun]

lemma updFun_ne {α : Type} (f : ℕ → α) (k i : ℕ) (v : α) (h : i ≠ k) :
    updFun f k v i = f i := by
  simp [updFun, h]

/-! ### Facts about the elementary scheduler operations -/

lemma enqueue_facts (g : Graph) (s : EstState) (n : ℕ) :
    (enqueueNodeIfPossible g s n).nodesInProcess = s.nodesInProcess ∧
    (enqueueNodeIfPossible g s n).nodesCompleted = s.nodesCompleted ∧
    (enqueueNodeIfPossible g s n).connectionsInUse = s.connectionsInUse ∧
    (enqueueNodeIfPossible g s n).conns = s.conns ∧
    (enqueueNodeIfPossible g s n).aux = s.aux ∧
    (enqueueNodeIfPossible g s n).totalElapsedTime = s.totalElapsedTime ∧
    (∀ m ∈ s.nodesInQueue, m ∈ (enqueueNodeIfPossible g s n).nodesInQueue) := by
  unfold enqueueNodeIfPossible
  split
  · exact ⟨rfl, rfl, rfl, rfl, rfl, rfl, fun m hm => mem_addList.mpr (Or.inl hm)⟩
  · exact ⟨rfl, rfl, rfl, rfl, rfl, rfl, fun m hm => hm⟩

lemma enqueueFold_facts (g : Graph) :
    ∀ (l : List ℕ) (s : EstState),
    ((l.foldl (fun st d => enqueueNodeIfPossible g st d) s).nodesInProcess
        = s.nodesInProcess) ∧
    ((l.foldl (fun st d => enqueueNodeIfPossible g st d) s).nodesCompleted
        = s.nodesCompleted) ∧
    ((l.foldl (fun st d => enqueueNodeIfPossible g st d) s).connectionsInUse
        = s.connectionsInUse) ∧
    ((l.foldl (fun st d => enqueueNodeIfPossible g st d) s).conns = s.conns) ∧
    ((l.foldl (fun st d => enqueueNodeIfPossible g st d) s).aux = s.aux) ∧
    ((l.foldl (fun st d => enqueueNodeIfPossible g st d) s).totalElapsedTime
        = s.totalElapsedTime) ∧
    (∀ m ∈ s.nodesInQueue,
      m ∈ (l.foldl (fun st d => enqueueNodeIfPossible g st d) s).nodesInQueue) := by
  intro l
  induction l with
  | nil => intro s; exact ⟨rfl, rfl, rfl, rfl, rfl, rfl, fun m hm => hm⟩
  | cons d rest ih =>
    intro s
    simp only [List.foldl_cons]
    obtain ⟨h1, h2, h3, h4, h5, h6, h7⟩ := ih (enqueueNodeIfPossible g s d)
    obtain ⟨e1, e2, e3, e4, e5, e6, e7⟩ := enqueue_facts g s d
    exact ⟨h1.trans e1, h2.trans e2, h3.trans e3, h4.trans e4, h5.trans e5,
      h6.trans e6, fun m hm => h7 m (e7 m hm)⟩

/-- `_startNodeIfPossible` either leaves the state unchanged or admits a
NETWORK node below the cap on a free connection. -/
lemma start_cases (g : Graph) (o : EstimatorOptions) (s : EstState) (n : ℕ) :
    startNodeIfPossible g o s n = s ∨
    (g.typeOf n = NodeType.network ∧
      ¬ maximumConcurrentRequests o ≤ (s.nodesInProcess.length : ℚ) ∧
      cidOf g n ∉ s.connectionsInUse ∧
      startNodeIfPossible g o s n =
        { s with
          nodesInQueue := removeList s.nodesInQueue n,
          nodesInProcess := addList s.nodesInProcess n,
          aux := updFun s.aux n
            { startTime := s.totalElapsedTime, timeElapsed := 0,
              timeElapsedOvershoot := 0, bytesDownloaded := 0,
              estimatedTimeElapsed := none, endTime := none },
          connectionsInUse := addList s.connectionsInUse (cidOf g n) }) := by
  unfold startNodeIfPossible
  split
  · exact Or.inl rfl
  · next hnet =>
    dsimp only
    split
    · exact Or.inl rfl
    · next hg =>
      push_neg at hnet hg
      exact Or.inr ⟨not_not.mp (by simpa using hnet), not_le.mpr hg.1, hg.2, rfl⟩

lemma start_SchedInv (g : Graph) (o : EstimatorOptions) (s : EstState) (n : ℕ)
    (h : SchedInv g s) : SchedInv g (startNodeIfPossible g o s n) := by
  rcases start_cases g o s n with heq | ⟨hnet, hcap, hfree, heq⟩
  · rw [heq]; exact h
  · rw [heq]
    have hni : n ∉ s.nodesInProcess := fun hn => hfree (h.inUse n hn)
    refine ⟨?_, ?_, ?_, ?_⟩
    · intro m hm
      rcases mem_addList.mp hm with hm | rfl
      · exact h.net m hm
      · exact hnet
    · exact nodup_addList n h.nodup
    · intro m hm
      rcases mem_addList.mp hm with hm | rfl
      · exact mem_addList.mpr (Or.inl (h.inUse m hm))
      · exact mem_addList.mpr (Or.inr rfl)
    · exact pairwise_addList h.distinct
        (fun y hy hcontra => hfree (hcontra ▸ h.inUse y hy))

lemma start_CapInv (g : Graph) (o : EstimatorOptions) (s : EstState) (n : ℕ)
    (hint : ∃ k : ℤ, (k : ℚ) = maximumConcurrentRequests o)
    (hI : SchedInv g s) (hC : CapInv o s) :
    CapInv o (startNodeIfPossible g o s n) := by
  rcases start_cases g o s n with heq | ⟨_, hcap, hfree, heq⟩
  · rw [heq]; exact hC
  · rw [heq]
    have hni : n ∉ s.nodesInProcess := fun hn => hfree (hI.inUse n hn)
    unfold CapInv
    show ((addList s.nodesInProcess n).length : ℚ) ≤ maximumConcurrentRequests o
    rw [length_addList_of_not_mem hni]
    obtain ⟨k, hk⟩ := hint
    push_neg at hcap
    rw [← hk] at hcap ⊢
    have : (s.nodesInProcess.length : ℤ) < k := by exact_mod_cast hcap
    have : (s.nodesInProcess.length : ℤ) + 1 ≤ k := this
    exact_mod_cast this

lemma start_queue_keeps_nonnet (g : Graph) (o : EstimatorOptions)
    (s : EstState) (n m : ℕ) (hm : m ∈ s.nodesInQueue)
    (ht : g.typeOf m ≠ NodeType.network) :
    m ∈ (startNodeIfPossible g o s n).nodesInQueue := by
  rcases start_cases g o s n with heq | ⟨hnet, _, _, heq⟩
  · rw [heq]; exact hm
  · rw [heq]
    exact mem_removeList.mpr ⟨hm, fun hmn => ht (hmn ▸ hnet)⟩

lemma start_other_fields (g : Graph) (o : EstimatorOptions) (s : EstState)
    (n : ℕ) :
    (startNodeIfPossible g o s n).nodesCompleted = s.nodesCompleted ∧
    (startNodeIfPossible g o s n).conns = s.conns ∧
    (startNodeIfPossible g o s n).totalElapsedTime = s.totalElapsedTime := by
  rcases start_cases g o s n with heq | ⟨_, _, _, heq⟩ <;>
    rw [heq] <;> exact ⟨rfl, rfl, rfl⟩

lemma start_OvershootInv (g : Graph) (o : EstimatorOptions) (s : EstState)
    (n : ℕ) (h : OvershootInv s) :
    OvershootInv (startNodeIfPossible g o s n) := by
  rcases start_cases g o s n with heq | ⟨_, _, _, heq⟩
  · rw [heq]; exact h
  · rw [heq]
    intro k
    by_cases hk : k = n
    · subst hk
      show 0 ≤ (updFun s.aux k _ k).timeElapsedOvershoot
      rw [updFun_same]
    · show 0 ≤ (updFun s.aux n _ k).timeElapsedOvershoot
      rw [updFun_ne _ _ _ _ hk]
      exact h k

lemma admitFold_invs (g : Graph) (o : EstimatorOptions) :
    ∀ (l : List ℕ) (s : EstState),
      (SchedInv g s → SchedInv g (l.foldl (fun st x => startNodeIfPossible g o st x) s)) ∧
      ((∃ k : ℤ, (k : ℚ) = maximumConcurrentRequests o) → SchedInv g s → CapInv o s →
        CapInv o (l.foldl (fun st x => startNodeIfPossible g o st x) s)) ∧
      (OvershootInv s → OvershootInv (l.foldl (fun st x => startNodeIfPossible g o st x) s)) ∧
      ((l.foldl (fun st x => startNodeIfPossible g o st x) s).nodesCompleted = s.nodesCompleted) ∧
      ((l.foldl (fun st x => startNodeIfPossible g o st x) s).conns = s.conns) ∧
      ((l.foldl (fun st x => startNodeIfPossible g o st x) s).totalElapsedTime = s.totalElapsedTime) ∧
      (∀ m ∈ s.nodesInQueue, g.typeOf m ≠ NodeType.network →
        m ∈ (l.foldl (fun st x => startNodeIfPossible g o st x) s).nodesInQueue) := by
  intro l
  induction l with
  | nil =>
    intro s
    exact ⟨id, fun _ _ h => h, id, rfl, rfl, rfl, fun m hm _ => hm⟩
  | cons x rest ih =>
    intro s
    simp only [List.foldl_cons]
    obtain ⟨i1, i2, i3, i4, i5, i6, i7⟩ := ih (startNodeIfPossible g o s x)
    obtain ⟨f1, f2, f3⟩ := start_other_fields g o s x
    refine ⟨?_, ?_, ?_, i4.trans f1, i5.trans f2, i6.trans f3, ?_⟩
    · intro h; exact i1 (start_SchedInv g o s x h)
    · intro hint hI hC
      exact i2 hint (start_SchedInv g o s x hI) (start_CapInv g o s x hint hI hC)
    · intro h; exact i3 (start_OvershootInv g o s x h)
    · intro m hm ht
      exact i7 m (start_queue_keeps_nonnet g o s x m hm ht) ht

lemma capacity_SchedInv (g : Graph) (o : EstimatorOptions) (s : EstState)
    (h : SchedInv g s) : SchedInv g (updateNetworkCapacity o s) :=
  ⟨h.net, h.nodup, h.inUse, h.distinct⟩

/-! ### Facts about the estimate and progress queries -/

lemma estOf_congr (g : Graph) (s s2 : EstState) (x : ℕ)
    (hc : s2.conns (cidOf g x) = s.conns (cidOf g x))
    (h1 : (s2.aux x).timeElapsed = (s.aux x).timeElapsed)
    (h2 : (s2.aux x).timeElapsedOvershoot = (s.aux x).timeElapsedOvershoot)
    (h3 : (s2.aux x).bytesDownloaded = (s.aux x).bytesDownloaded) :
    estOf g s2 x = estOf g s x := by
  unfold estOf
  rw [hc, h1, h2, h3]

lemma calcDeadline_congr (g : Graph) (tpl : Option ℚ) (s s2 : EstState) (x : ℕ)
    (hc : s2.conns (cidOf g x) = s.conns (cidOf g x))
    (h1 : (s2.aux x).timeElapsed = (s.aux x).timeElapsed)
    (h2 : (s2.aux x).timeElapsedOvershoot = (s.aux x).timeElapsedOvershoot)
    (h3 : (s2.aux x).bytesDownloaded = (s.aux x).bytesDownloaded) :
    calcDeadline g tpl s2 x = calcDeadline g tpl s x := by
  unfold calcDeadline
  rw [hc, h1, h2, h3]

lemma estimateTimeRemaining_ok (g : Graph) (s : EstState) (n : ℕ)
    (hnet : g.typeOf n = NodeType.network) :
    estimateTimeRemaining g s n =
      .ok (estOf g s n, setEst s n (estOf g s n)) := by
  unfold estimateTimeRemaining estOf cidOf setEst
  rw [if_neg (fun h => h hnet)]

lemma findNextLoop_sets (g : Graph) :
    ∀ (l : List ℕ) (m : Option ℚ) (s : EstState) (m2 : Option ℚ) (s2 : EstState),
      findNextLoop g l m s = .ok (m2, s2) →
      s2.nodesInQueue = s.nodesInQueue ∧
      s2.nodesInProcess = s.nodesInProcess ∧
      s2.nodesCompleted = s.nodesCompleted ∧
      s2.connectionsInUse = s.connectionsInUse ∧
      s2.conns = s.conns ∧
      s2.totalElapsedTime = s.totalElapsedTime := by
  intro l
  induction l with
  | nil =>
    intro m s m2 s2 h
    simp only [findNextLoop] at h
    injection h with h
    injection h with h1 h2
    subst h2
    exact ⟨rfl, rfl, rfl, rfl, rfl, rfl⟩
  | cons n rest ih =>
    intro m s m2 s2 h
    simp only [findNextLoop] at h
    by_cases hnet : g.typeOf n = NodeType.network
    · rw [estimateTimeRemaining_ok g s n hnet] at h
      have h2 : findNextLoop g rest (emin m (some (estOf g s n)))
          (setEst s n (estOf g s n)) = .ok (m2, s2) := h
      obtain ⟨q1, q2, q3, q4, q5, q6⟩ := ih _ _ _ _ h2
      exact ⟨q1, q2, q3, q4, q5, q6⟩
    · rw [show estimateTimeRemaining g s n = .error .unsupported from by
        unfold estimateTimeRemaining; rw [if_pos hnet]] at h
      cases h

lemma setEst_aux_ne (s : EstState) (n : ℕ) (e : ℚ) (k : ℕ) (hk : k ≠ n) :
    (setEst s n e).aux k = s.aux k := by
  simp [setEst, updFun, hk]

lemma setEst_aux_self (s : EstState) (n : ℕ) (e : ℚ) :
    (setEst s n e).aux n =
      { startTime := (s.aux n).startTime,
        timeElapsed := (s.aux n).timeElapsed,
        timeElapsedOvershoot := (s.aux n).timeElapsedOvershoot,
        bytesDownloaded := (s.aux n).bytesDownloaded,
        estimatedTimeElapsed := some e,
        endTime := (s.aux n).endTime } := by
  simp [setEst, updFun]

/-- Full specification of `_findNextNodeCompletionTime`'s fold over NETWORK
nodes: it succeeds, changes only the stored estimates, stores on each listed
node its current full-transfer estimate, and returns the minimum of the
accumulator and those estimates. -/
lemma findNextLoop_ok (g : Graph) :
    ∀ (l : List ℕ) (m : Option ℚ) (s : EstState),
      (∀ n ∈ l, g.typeOf n = NodeType.network) →
      ∃ m2 s2, findNextLoop g l m s = .ok (m2, s2) ∧
        s2.nodesInQueue = s.nodesInQueue ∧
        s2.nodesInProcess = s.nodesInProcess ∧
        s2.nodesCompleted = s.nodesCompleted ∧
        s2.connectionsInUse = s.connectionsInUse ∧
        s2.conns = s.conns ∧
        s2.totalElapsedTime = s.totalElapsedTime ∧
        (∀ k, (s2.aux k).startTime = (s.aux k).startTime ∧
              (s2.aux k).timeElapsed = (s.aux k).timeElapsed ∧
              (s2.aux k).timeElapsedOvershoot = (s.aux k).timeElapsedOvershoot ∧
              (s2.aux k).bytesDownloaded = (s.aux k).bytesDownloaded ∧
              (s2.aux k).endTime = (s.aux k).endTime) ∧
        (∀ k, k ∉ l →
          (s2.aux k).estimatedTimeElapsed = (s.aux k).estimatedTimeElapsed) ∧
        (∀ n ∈ l, (s2.aux n).estimatedTimeElapsed = some (estOf g s n)) ∧
        (∀ t, m2 = some t →
          (∀ n ∈ l, t ≤ estOf g s n) ∧ (∀ x, m = some x → t ≤ x)) ∧
        (m2 = none → m = none ∧ l = []) := by
  intro l
  induction l with
  | nil =>
    intro m s _
    refine ⟨m, s, rfl, rfl, rfl, rfl, rfl, rfl, rfl,
      fun k => ⟨rfl, rfl, rfl, rfl, rfl⟩, fun k _ => rfl, by simp, ?_, ?_⟩
    · intro t ht
      refine ⟨by simp, ?_⟩
      intro x hx
      rw [hx] at ht
      injection ht with ht
      exact le_of_eq ht.symm
    · intro h
      exact ⟨h, rfl⟩
  | cons n rest ih =>
    intro m s hnetl
    have hnet : g.typeOf n = NodeType.network := hnetl n (List.mem_cons_self _ _)
    have hrest : ∀ x ∈ rest, g.typeOf x = NodeType.network :=
      fun x hx => hnetl x (List.mem_cons_of_mem _ hx)
    obtain ⟨m2, s2, hloop, q1, q2, q3, q4, q5, q6, q7, q8, q9, q10, q11⟩ :=
      ih (emin m (some (estOf g s n))) (setEst s n (estOf g s n)) hrest
    have hfields : ∀ k,
        ((setEst s n (estOf g s n)).aux k).startTime = (s.aux k).startTime ∧
        ((setEst s n (estOf g s n)).aux k).timeElapsed = (s.aux k).timeElapsed ∧
        ((setEst s n (estOf g s n)).aux k).timeElapsedOvershoot =
          (s.aux k).timeElapsedOvershoot ∧
        ((setEst s n (estOf g s n)).aux k).bytesDownloaded =
          (s.aux k).bytesDownloaded ∧
        ((setEst s n (estOf g s n)).aux k).endTime = (s.aux k).endTime := by
      intro k
      by_cases hk : k = n
      · subst hk
        rw [setEst_aux_self]
        exact ⟨rfl, rfl, rfl, rfl, rfl⟩
      · rw [setEst_aux_ne s n _ k hk]
        exact ⟨rfl, rfl, rfl, rfl, rfl⟩
    have hconns : (setEst s n (estOf g s n)).conns = s.conns := rfl
    have hestcongr : ∀ x, estOf g (setEst s n (estOf g s n)) x = estOf g s x := by
      intro x
      obtain ⟨_, e1, e2, e3, _⟩ := hfields x
      exact estOf_congr g s _ x (by rw [hconns]) e1 e2 e3
    refine ⟨m2, s2, ?_, q1, q2, q3, q4, q5.trans hconns, q6, ?_, ?_, ?_, ?_, ?_⟩
    · simp only [findNextLoop]
      rw [estimateTimeRemaining_ok g s n hnet]
      exact hloop
    · intro k
      obtain ⟨a1, a2, a3, a4, a5⟩ := q7 k
      obtain ⟨b1, b2, b3, b4, b5⟩ := hfields k
      exact ⟨a1.trans b1, a2.trans b2, a3.trans b3, a4.trans b4, a5.trans b5⟩
    · intro k hk
      have hkn : k ≠ n := fun hkn => hk (hkn ▸ List.mem_cons_self _ _)
      have hkr : k ∉ rest := fun hkr => hk (List.mem_cons_of_mem _ hkr)
      rw [q8 k hkr, setEst_aux_ne s n _ k hkn]
    · intro x hx
      rcases List.mem_cons.mp hx with rfl | hx
      · by_cases hxr : x ∈ rest
        · rw [q9 x hxr, hestcongr x]
        · rw [q8 x hxr, setEst_aux_self]
      · rw [q9 x hx, hestcongr x]
    · intro t ht
      obtain ⟨hb1, hb2⟩ := q10 t ht
      have htn : t ≤ estOf g s n := by
        cases m with
        | none => exact hb2 (estOf g s n) rfl
        | some a => exact le_trans (hb2 (min a (estOf g s n)) rfl) (min_le_right _ _)
      refine ⟨?_, ?_⟩
      · intro x hx
        rcases List.mem_cons.mp hx with rfl | hx
        · exact htn
        · exact (hestcongr x) ▸ hb1 x hx
      · intro x hx
        cases m with
        | none => exact absurd hx (by simp)
        | some a =>
          injection hx with hx
          subst hx
          exact le_trans (hb2 (min a (estOf g s n)) rfl) (min_le_left _ _)
    · intro hm2
      obtain ⟨hemin, _⟩ := q11 hm2
      exfalso
      cases m <;> simp [emin] at hemin

/-- Case analysis of a successful `_updateProgressMadeInTimePeriod`: the
node is NETWORK, and either it is a finisher (stored estimate strictly
equal to the step length) — it leaves the in-process set, frees its
connection, is completed, and only its `endTime` changes in its aux data —
or it makes partial progress: the sets are untouched and its aux data
accumulates the deadline query's results. -/
lemma updateProgress_ok_cases (g : Graph) (tpl : Option ℚ) (s : EstState)
    (n : ℕ) (s1 : EstState) (h : updateProgress g tpl s n = .ok s1) :
    g.typeOf n = NodeType.network ∧
    ((eeq (s.aux n).estimatedTimeElapsed tpl = true ∧
      s1.nodesInProcess = removeList s.nodesInProcess n ∧
      s1.connectionsInUse = removeList s.connectionsInUse (cidOf g n) ∧
      s1.nodesCompleted = addList s.nodesCompleted n ∧
      (∀ m ∈ s.nodesInQueue, m ∈ s1.nodesInQueue) ∧
      (∀ k, k ≠ n → s1.aux k = s.aux k) ∧
      (s1.aux n).timeElapsedOvershoot = (s.aux n).timeElapsedOvershoot ∧
      (∀ c, c ≠ cidOf g n → s1.conns c = s.conns c) ∧
      s1.totalElapsedTime = s.totalElapsedTime) ∨
     (eeq (s.aux n).estimatedTimeElapsed tpl = false ∧
      s1.nodesInQueue = s.nodesInQueue ∧
      s1.nodesInProcess = s.nodesInProcess ∧
      s1.nodesCompleted = s.nodesCompleted ∧
      s1.connectionsInUse = s.connectionsInUse ∧
      (∀ k, k ≠ n → s1.aux k = s.aux k) ∧
      s1.aux n =
        { startTime := (s.aux n).startTime,
          timeElapsed := (s.aux n).timeElapsed +
            (calcDeadline g tpl s n).timeElapsed,
          timeElapsedOvershoot := (s.aux n).timeElapsedOvershoot +
            (calcDeadline g tpl s n).timeElapsed - tpl.getD 0,
          bytesDownloaded := (s.aux n).bytesDownloaded +
            (calcDeadline g tpl s n).bytesDownloaded,
          estimatedTimeElapsed := (s.aux n).estimatedTimeElapsed,
          endTime := (s.aux n).endTime } ∧
      (∀ c, c ≠ cidOf g n → s1.conns c = s.conns c) ∧
      s1.totalElapsedTime = s.totalElapsedTime)) := by
  unfold updateProgress at h
  by_cases hnet : g.typeOf n = NodeType.network
  · rw [if_neg (fun hh => hh hnet)] at h
    dsimp only at h
    refine ⟨hnet, ?_⟩
    by_cases heq : eeq (s.aux n).estimatedTimeElapsed tpl = true
    · rw [if_pos heq] at h
      injection h with h
      left
      obtain ⟨f1, f2, f3, f4, f5, f6, f7⟩ := enqueueFold_facts g (g.dependents n)
        { s with
          conns := updFun
            (updFun s.conns (g.recordOf n).connectionId
              ((s.conns (g.recordOf n).connectionId).setCongestionWindow
                ((s.conns (g.recordOf n).connectionId).calculateTimeToDownload
                  ((g.recordOf n).transferSize - (s.aux n).bytesDownloaded)
                  (s.aux n).timeElapsed
                  (esub tpl (s.aux n).timeElapsedOvershoot)).congestionWindow))
            (g.recordOf n).connectionId
            ((updFun s.conns (g.recordOf n).connectionId
              ((s.conns (g.recordOf n).connectionId).setCongestionWindow
                ((s.conns (g.recordOf n).connectionId).calculateTimeToDownload
                  ((g.recordOf n).transferSize - (s.aux n).bytesDownloaded)
                  (s.aux n).timeElapsed
                  (esub tpl (s.aux n).timeElapsedOvershoot)).congestionWindow)
              (g.recordOf n).connectionId).setWarmed
              true),
          connectionsInUse :=
            removeList s.connectionsInUse (g.recordOf n).connectionId,
          nodesCompleted := addList s.nodesCompleted n,
          nodesInProcess := removeList s.nodesInProcess n,
          aux := updFun s.aux n
            { startTime := (s.aux n).startTime,
              timeElapsed := (s.aux n).timeElapsed,
              timeElapsedOvershoot := (s.aux n).timeElapsedOvershoot,
              bytesDownloaded := (s.aux n).bytesDownloaded,
              estimatedTimeElapsed := (s.aux n).estimatedTimeElapsed,
              endTime := s.totalElapsedTime } }
      rw [← h]
      refine ⟨heq, f1, f3, f2, fun m hm => f7 m hm, ?_, ?_, ?_, f6⟩
      · intro k hk
        exact (congrFun f5 k).trans (updFun_ne _ _ _ _ hk)
      · have hv := (congrFun f5 n).trans (updFun_same s.aux n _)
        rw [hv]
      · intro c hc
        exact (congrFun f4 c).trans
          ((updFun_ne _ _ _ _ hc).trans (updFun_ne _ _ _ _ hc))
    · rw [if_neg heq] at h
      injection h with h
      right
      have heqf : eeq (s.aux n).estimatedTimeElapsed tpl = false := by
        revert heq
        cases eeq (s.aux n).estimatedTimeElapsed tpl <;> simp
      rw [← h]
      refine ⟨heqf, rfl, rfl, rfl, rfl, ?_, ?_, ?_, rfl⟩
      · intro k hk
        exact updFun_ne _ _ _ _ hk
      · exact updFun_same _ _ _
      · intro c hc
        exact updFun_ne _ _ _ _ hc
  · rw [if_pos hnet] at h
    cases h

end Estimator

namespace TcpConnection

/-- Deadline dichotomy for the download loop: with sufficient fuel, a run
with deadline `m` either coincides with the no-deadline run (it exhausted
the bytes first) or its elapsed download time exceeds the deadline. -/
lemma dlLoopF_deadline_cases (mc rtt m : ℚ) :
    ∀ (n : ℕ) (rt : ℤ) (dl cw bd br : ℚ), (⌈br⌉).toNat < n →
      dlLoopF mc rtt (some m) n rt dl cw bd br =
        dlLoopF mc rtt none n rt dl cw bd br ∨
      m < (dlLoopF mc rtt (some m) n rt dl cw bd br).2.1 := by
  intro n
  induction n with
  | zero => intro rt dl cw bd br hn; omega
  | succ n ih =>
    intro rt dl cw bd br hn
    by_cases hbr : 0 < br
    · by_cases hdl : dl ≤ m
      · have hg1 : 0 < br ∧ dlLe dl (some m) = true :=
          ⟨hbr, by simp [dlLe, hdl]⟩
        have hg2 : 0 < br ∧ dlLe dl none = true := ⟨hbr, rfl⟩
        simp only [dlLoopF, if_pos hg1, if_pos hg2]
        have hlt := @dlStep_ceil_lt mc cw _ hbr
        exact ih _ _ _ _ _ (by omega)
      · have hg1 : ¬ (0 < br ∧ dlLe dl (some m) = true) := by
          intro hc
          exact hdl (by simpa [dlLe] using hc.2)
        simp only [dlLoopF, if_neg hg1]
        right
        exact not_le.mp hdl
    · have hg1 : ¬ (0 < br ∧ dlLe dl (some m) = true) := fun hc => hbr hc.1
      have hg2 : ¬ (0 < br ∧ dlLe dl none = true) := fun hc => hbr hc.1
      simp only [dlLoopF, if_neg hg1, if_neg hg2]
      exact Or.inl trivial

/-- Deadline dichotomy for the `while` loop. -/
lemma dlLoop_deadline_cases (mc rtt m : ℚ) (rt : ℤ) (dl cw bd br : ℚ) :
    dlLoop mc rtt (some m) rt dl cw bd br =
      dlLoop mc rtt none rt dl cw bd br ∨
    m < (dlLoop mc rtt (some m) rt dl cw bd br).2.1 :=
  dlLoopF_deadline_cases mc rtt m (dlFuel br) rt dl cw bd br (Nat.lt_succ_self _)

lemma deadline_cases_gen (mc rtt R m : ℚ) (rt0 : ℤ) (cw0 bd0 br0 : ℚ) :
    R + (dlLoop mc rtt (esub (some m) R) rt0 0 cw0 bd0 br0).2.1 =
      R + (dlLoop mc rtt (esub none R) rt0 0 cw0 bd0 br0).2.1 ∨
    m < R + (dlLoop mc rtt (esub (some m) R) rt0 0 cw0 bd0 br0).2.1 := by
  rcases dlLoop_deadline_cases mc rtt (m - R) rt0 0 cw0 bd0 br0 with h | h
  · left
    rw [show esub (some m) R = some (m - R) from rfl, h]
    rfl
  · right
    have h2 : m - R <
        (dlLoop mc rtt (esub (some m) R) rt0 0 cw0 bd0 br0).2.1 := by
      rw [show esub (some m) R = some (m - R) from rfl]
      exact h
    linarith

/-- Deadline dichotomy for `calculateTimeToDownload`: the elapsed time of a
deadline-bounded query either equals that of the unbounded query or exceeds
the deadline. -/
lemma calculate_deadline_cases (c : TcpConnection) (b te m : ℚ) :
    (calculateTimeToDownload c b te (some m)).timeElapsed =
      (calculateTimeToDownload c b te none).timeElapsed ∨
    m < (calculateTimeToDownload c b te (some m)).timeElapsed := by
  unfold calculateTimeToDownload
  dsimp only
  exact deadline_cases_gen _ _ _ _ _ _ _ _

/-- Pointwise monotonicity of the no-deadline download loop: a run with a
larger congestion-window cap, a no smaller window and no more bytes
remaining never takes longer. -/
lemma dlLoopF_mono (rtt : ℚ) (hr : 0 ≤ rtt) :
    ∀ (n : ℕ) (mc1 mc2 : ℚ), mc1 ≤ mc2 →
    ∀ (rt1 rt2 : ℤ) (dl cw1 cw2 bd1 bd2 br1 br2 : ℚ),
      cw1 ≤ cw2 → br2 ≤ br1 → (⌈br1⌉).toNat < n →
      (dlLoopF mc2 rtt none n rt2 dl cw2 bd2 br2).2.1 ≤
        (dlLoopF mc1 rtt none n rt1 dl cw1 bd1 br1).2.1 := by
  intro n
  induction n with
  | zero => intro mc1 mc2 _ rt1 rt2 dl cw1 cw2 bd1 bd2 br1 br2 _ _ hn; omega
  | succ n ih =>
    intro mc1 mc2 hmc rt1 rt2 dl cw1 cw2 bd1 bd2 br1 br2 hcw hbr hn
    by_cases hbr2 : 0 < br2
    · have hbr1 : 0 < br1 := lt_of_lt_of_le hbr2 hbr
      have hg2 : 0 < br2 ∧ dlLe dl none = true := ⟨hbr2, rfl⟩
      have hg1 : 0 < br1 ∧ dlLe dl none = true := ⟨hbr1, rfl⟩
      simp only [dlLoopF, if_pos hg1, if_pos hg2]
      have hcw2 : max (min mc1 (cw1 * 2)) 1 ≤ max (min mc2 (cw2 * 2)) 1 :=
        max_le_max (min_le_min hmc (by linarith)) (le_refl 1)
      have hseg : (0 : ℚ) ≤ TCP_SEGMENT_SIZE := by norm_num [TCP_SEGMENT_SIZE]
      have hw : max (min mc1 (cw1 * 2)) 1 * TCP_SEGMENT_SIZE ≤
          max (min mc2 (cw2 * 2)) 1 * TCP_SEGMENT_SIZE :=
        mul_le_mul_of_nonneg_right hcw2 hseg
      have hlt := @dlStep_ceil_lt mc1 cw1 _ hbr1
      exact ih mc1 mc2 hmc _ _ _ _ _ _ _ _ _ hcw2 (by linarith) (by omega)
    · have hg2 : ¬ (0 < br2 ∧ dlLe dl none = true) := fun hc => hbr2 hc.1
      simp only [dlLoopF, if_neg hg2]
      exact dlLoopF_dl_ge mc1 rtt none hr (n + 1) rt1 dl cw1 bd1 br1

lemma calc_te_mono_gen (rtt R b : ℚ) (hr : 0 ≤ rtt) (mc1 mc2 cw1 cw2 : ℚ)
    (hmc : mc1 ≤ mc2) (hcw : cw1 ≤ cw2) (rt1 rt2 : ℤ) :
    R + (dlLoop mc2 rtt (esub none R) rt2 0 cw2
          (if 0 < R then cw2 * TCP_SEGMENT_SIZE else 0)
          (b - (if 0 < R then cw2 * TCP_SEGMENT_SIZE else 0))).2.1 ≤
      R + (dlLoop mc1 rtt (esub none R) rt1 0 cw1
          (if 0 < R then cw1 * TCP_SEGMENT_SIZE else 0)
          (b - (if 0 < R then cw1 * TCP_SEGMENT_SIZE else 0))).2.1 := by
  have hseg : (0 : ℚ) ≤ TCP_SEGMENT_SIZE := by norm_num [TCP_SEGMENT_SIZE]
  have hbd : (if 0 < R then cw1 * TCP_SEGMENT_SIZE else 0) ≤
      (if 0 < R then cw2 * TCP_SEGMENT_SIZE else 0) := by
    split
    · exact mul_le_mul_of_nonneg_right hcw hseg
    · exact le_refl 0
  have hbr : b - (if 0 < R then cw2 * TCP_SEGMENT_SIZE else 0) ≤
      b - (if 0 < R then cw1 * TCP_SEGMENT_SIZE else 0) := by linarith
  have hfuel2 : (⌈b - (if 0 < R then cw2 * TCP_SEGMENT_SIZE else 0)⌉).toNat ≤
      (⌈b - (if 0 < R then cw1 * TCP_SEGMENT_SIZE else 0)⌉).toNat := by
    have := Int.ceil_le_ceil (α := ℚ) hbr
    omega
  have hcongr : dlLoop mc2 rtt (esub none R) rt2 0 cw2
        (if 0 < R then cw2 * TCP_SEGMENT_SIZE else 0)
        (b - (if 0 < R then cw2 * TCP_SEGMENT_SIZE else 0)) =
      dlLoopF mc2 rtt (esub none R)
        (dlFuel (b - (if 0 < R then cw1 * TCP_SEGMENT_SIZE else 0))) rt2 0 cw2
        (if 0 < R then cw2 * TCP_SEGMENT_SIZE else 0)
        (b - (if 0 < R then cw2 * TCP_SEGMENT_SIZE else 0)) := by
    unfold dlLoop
    exact dlLoopF_congr _ _ _ _ _ _ _ _ _ _
      (by unfold dlFuel; omega) (by unfold dlFuel; omega)
  have key := dlLoopF_mono rtt hr
    (dlFuel (b - (if 0 < R then cw1 * TCP_SEGMENT_SIZE else 0)))
    mc1 mc2 hmc rt1 rt2 0 cw1 cw2
    (if 0 < R then cw1 * TCP_SEGMENT_SIZE else 0)
    (if 0 < R then cw2 * TCP_SEGMENT_SIZE else 0)
    (b - (if 0 < R then cw1 * TCP_SEGMENT_SIZE else 0))
    (b - (if 0 < R then cw2 * TCP_SEGMENT_SIZE else 0))
    hcw hbr (by unfold dlFuel; omega)
  rw [hcongr]
  unfold dlLoop
  simp only [show esub none R = (none : Option ℚ) from rfl]
  linarith [key]

/-- Increasing the available throughput never increases the elapsed time of
a full (no-deadline) transfer query. -/
lemma calculate_throughput_mono (c : TcpConnection) (b te t2 : ℚ)
    (hr : 0 ≤ c.rtt) (ht : c.availableThroughput ≤ t2) :
    (calculateTimeToDownload (setThroughput c t2) b te none).timeElapsed ≤
      (calculateTimeToDownload c b te none).timeElapsed := by
  have hmc : ((computeMaximumCongestionWindowInSegments c : ℤ) : ℚ) ≤
      ((computeMaximumCongestionWindowInSegments (setThroughput c t2) : ℤ) : ℚ) := by
    have harg : c.availableThroughput / 8 * (c.rtt / 1000) / TCP_SEGMENT_SIZE ≤
        t2 / 8 * (c.rtt / 1000) / TCP_SEGMENT_SIZE := by
      have h1 : c.availableThroughput / 8 ≤ t2 / 8 := by linarith
      have h2 : (0 : ℚ) ≤ c.rtt / 1000 := by positivity
      have h3 : c.availableThroughput / 8 * (c.rtt / 1000) ≤
          t2 / 8 * (c.rtt / 1000) := mul_le_mul_of_nonneg_right h1 h2
      have hseg : (0 : ℚ) < TCP_SEGMENT_SIZE := by norm_num [TCP_SEGMENT_SIZE]
      exact (div_le_div_iff_of_pos_right hseg).mpr h3
    have := Int.floor_le_floor (α := ℚ) harg
    unfold computeMaximumCongestionWindowInSegments setThroughput
    exact_mod_cast this
  have hcw : min c.congestionWindow
        ((computeMaximumCongestionWindowInSegments c : ℤ) : ℚ) ≤
      min (setThroughput c t2).congestionWindow
        ((computeMaximumCongestionWindowInSegments (setThroughput c t2) : ℤ) : ℚ) :=
    min_le_min (le_refl _) hmc
  unfold calculateTimeToDownload
  dsimp only
  exact calc_te_mono_gen c.rtt _ b hr _ _ _ _ hmc hcw _ _

end TcpConnection

namespace Estimator

lemma updateProgress_ok_of_net (g : Graph) (tpl : Option ℚ) (s : EstState)
    (n : ℕ) (hnet : g.typeOf n = NodeType.network) :
    ∃ s1, updateProgress g tpl s n = .ok s1 := by
  unfold updateProgress
  rw [if_neg (fun hh => hh hnet)]
  dsimp only
  by_cases heq : eeq (s.aux n).estimatedTimeElapsed tpl = true
  · rw [if_pos heq]
    exact ⟨_, rfl⟩
  · rw [if_neg heq]
    exact ⟨_, rfl⟩

/-- Master lemma about the progress-update loop over a list of NETWORK
nodes with pairwise-distinct connections that are in process and whose
progress fields agree with a reference state `sr`: the loop succeeds,
preserves the structural invariant, shrinks the in-process set, keeps
queued nodes queued, keeps the clock, and — when the step length is a lower
bound on every listed node's full-transfer estimate in `sr` — preserves
nonnegativity of the overshoots. -/
lemma updateLoop_master (g : Graph) (tpl : Option ℚ) (sr : EstState) :
    ∀ (l : List ℕ) (s : EstState),
      (∀ n ∈ l, g.typeOf n = NodeType.network) →
      l.Pairwise (fun a b => cidOf g a ≠ cidOf g b) →
      (∀ n ∈ l, n ∈ s.nodesInProcess) →
      (∀ n ∈ l, (s.aux n).timeElapsed = (sr.aux n).timeElapsed ∧
        (s.aux n).timeElapsedOvershoot = (sr.aux n).timeElapsedOvershoot ∧
        (s.aux n).bytesDownloaded = (sr.aux n).bytesDownloaded ∧
        s.conns (cidOf g n) = sr.conns (cidOf g n)) →
      SchedInv g s →
      ∃ s5, updateLoop g tpl s l = .ok s5 ∧
        SchedInv g s5 ∧
        s5.nodesInProcess.length ≤ s.nodesInProcess.length ∧
        (∀ m ∈ s.nodesInQueue, m ∈ s5.nodesInQueue) ∧
        s5.totalElapsedTime = s.totalElapsedTime ∧
        (OvershootInv s →
          (∀ n ∈ l, ∃ t, tpl = some t ∧ t ≤ estOf g sr n) →
          OvershootInv s5) := by
  intro l
  induction l with
  | nil =>
    intro s _ _ _ _ hI
    exact ⟨s, rfl, hI, le_refl _, fun m hm => hm, rfl, fun hO _ => hO⟩
  | cons n rest ih =>
    intro s hnet hpw hmem hsame hI
    have hnetn : g.typeOf n = NodeType.network := hnet n (List.mem_cons_self _ _)
    obtain ⟨s1, h1⟩ := updateProgress_ok_of_net g tpl s n hnetn
    obtain ⟨-, hcase⟩ := updateProgress_ok_cases g tpl s n s1 h1
    have hpwrest : rest.Pairwise (fun a b => cidOf g a ≠ cidOf g b) :=
      hpw.of_cons
    have hcidn : ∀ m ∈ rest, cidOf g n ≠ cidOf g m :=
      fun m hm => (List.pairwise_cons.mp hpw).1 m hm
    have hne_n : ∀ m ∈ rest, m ≠ n :=
      fun m hm he => hcidn m hm (by rw [he])
    have hnetrest : ∀ m ∈ rest, g.typeOf m = NodeType.network :=
      fun m hm => hnet m (List.mem_cons_of_mem _ hm)
    rcases hcase with
      ⟨heq, eProc, eUse, eComp, eQueue, eAuxNe, eOvN, eConnsNe, eTot⟩ |
      ⟨heq, eQueue, eProc, eComp, eUse, eAuxNe, eAuxN, eConnsNe, eTot⟩
    · -- finisher: n leaves the in-process set and frees its connection
      have hsym : Symmetric (fun a b : ℕ => cidOf g a ≠ cidOf g b) :=
        fun a b hab he => hab he.symm
      have hI1 : SchedInv g s1 := by
        refine ⟨?_, ?_, ?_, ?_⟩
        · intro m hm
          rw [eProc] at hm
          exact hI.net m (mem_removeList.mp hm).1
        · rw [eProc]
          exact nodup_removeList n hI.nodup
        · intro m hm
          rw [eProc] at hm
          obtain ⟨hm1, hmn⟩ := mem_removeList.mp hm
          rw [eUse]
          refine mem_removeList.mpr ⟨hI.inUse m hm1, ?_⟩
          exact List.Pairwise.forall hsym hI.distinct hm1
            (hmem n (List.mem_cons_self _ _)) hmn
        · rw [eProc]
          exact List.Pairwise.sublist (removeList_sublist _ _) hI.distinct
      have hmem1 : ∀ m ∈ rest, m ∈ s1.nodesInProcess := by
        intro m hm
        rw [eProc]
        exact mem_removeList.mpr
          ⟨hmem m (List.mem_cons_of_mem _ hm), hne_n m hm⟩
      have hsame1 : ∀ m ∈ rest,
          (s1.aux m).timeElapsed = (sr.aux m).timeElapsed ∧
          (s1.aux m).timeElapsedOvershoot = (sr.aux m).timeElapsedOvershoot ∧
          (s1.aux m).bytesDownloaded = (sr.aux m).bytesDownloaded ∧
          s1.conns (cidOf g m) = sr.conns (cidOf g m) := by
        intro m hm
        obtain ⟨d1, d2, d3, d4⟩ := hsame m (List.mem_cons_of_mem _ hm)
        have ha := eAuxNe m (hne_n m hm)
        refine ⟨?_, ?_, ?_, ?_⟩
        · rw [ha]; exact d1
        · rw [ha]; exact d2
        · rw [ha]; exact d3
        · rw [eConnsNe _ (hcidn m hm).symm]; exact d4
      obtain ⟨s5, hloop, hI5, hlen, hq, htot, hov⟩ :=
        ih s1 hnetrest hpwrest hmem1 hsame1 hI1
      refine ⟨s5, ?_, hI5, ?_, ?_, htot.trans eTot, ?_⟩
      · simp only [updateLoop]
        rw [h1]
        exact hloop
      · refine le_trans hlen ?_
        rw [eProc]
        exact length_removeList_le _ _
      · intro m hm
        exact hq m (eQueue m hm)
      · intro hO hfacts
        refine hov ?_ (fun m hm => hfacts m (List.mem_cons_of_mem _ hm))
        intro k
        by_cases hk : k = n
        · subst hk
          rw [eOvN]
          exact hO k
        · rw [eAuxNe k hk]
          exact hO k
    · -- partial progress: sets untouched, node n accumulates
      have hI1 : SchedInv g s1 := by
        refine ⟨?_, ?_, ?_, ?_⟩
        · intro m hm
          rw [eProc] at hm
          exact hI.net m hm
        · rw [eProc]
          exact hI.nodup
        · intro m hm
          rw [eProc] at hm
          rw [eUse]
          exact hI.inUse m hm
        · rw [eProc]
          exact hI.distinct
      have hmem1 : ∀ m ∈ rest, m ∈ s1.nodesInProcess := by
        intro m hm
        rw [eProc]
        exact hmem m (List.mem_cons_of_mem _ hm)
      have hsame1 : ∀ m ∈ rest,
          (s1.aux m).timeElapsed = (sr.aux m).timeElapsed ∧
          (s1.aux m).timeElapsedOvershoot = (sr.aux m).timeElapsedOvershoot ∧
          (s1.aux m).bytesDownloaded = (sr.aux m).bytesDownloaded ∧
          s1.conns (cidOf g m) = sr.conns (cidOf g m) := by
        intro m hm
        obtain ⟨d1, d2, d3, d4⟩ := hsame m (List.mem_cons_of_mem _ hm)
        have ha := eAuxNe m (hne_n m hm)
        refine ⟨?_, ?_, ?_, ?_⟩
        · rw [ha]; exact d1
        · rw [ha]; exact d2
        · rw [ha]; exact d3
        · rw [eConnsNe _ (hcidn m hm).symm]; exact d4
      obtain ⟨s5, hloop, hI5, hlen, hq, htot, hov⟩ :=
        ih s1 hnetrest hpwrest hmem1 hsame1 hI1
      refine ⟨s5, ?_, hI5, ?_, ?_, htot.trans eTot, ?_⟩
      · simp only [updateLoop]
        rw [h1]
        exact hloop
      · refine le_trans hlen (le_of_eq ?_)
        rw [eProc]
      · intro m hm
        refine hq m ?_
        rw [eQueue]
        exact hm
      · intro hO hfacts
        refine hov ?_ (fun m hm => hfacts m (List.mem_cons_of_mem _ hm))
        intro k
        by_cases hk : k = n
        · subst hk
          obtain ⟨t, htpl, hbound⟩ := hfacts k (List.mem_cons_self _ _)
          subst htpl
          have hv : (s1.aux k).timeElapsedOvershoot =
              (s.aux k).timeElapsedOvershoot +
                (calcDeadline g (some t) s k).timeElapsed - t := by
            rw [eAuxN]
            simp only [Option.getD_some]
          rw [hv]
          obtain ⟨d1, d2, d3, d4⟩ := hsame k (List.mem_cons_self _ _)
          have hcd : calcDeadline g (some t) s k =
              calcDeadline g (some t) sr k :=
            calcDeadline_congr g (some t) sr s k d4 d1 d2 d3
          rw [hcd, d2]
          have hcd2 : calcDeadline g (some t) sr k =
              (sr.conns (cidOf g k)).calculateTimeToDownload
                ((g.recordOf k).transferSize - (sr.aux k).bytesDownloaded)
                ((sr.aux k).timeElapsed)
                (some (t - (sr.aux k).timeElapsedOvershoot)) := rfl
          have hest : estOf g sr k =
              ((sr.conns (cidOf g k)).calculateTimeToDownload
                ((g.recordOf k).transferSize - (sr.aux k).bytesDownloaded)
                ((sr.aux k).timeElapsed) none).timeElapsed +
              (sr.aux k).timeElapsedOvershoot := rfl
          rw [hcd2]
          rcases TcpConnection.calculate_deadline_cases (sr.conns (cidOf g k))
              ((g.recordOf k).transferSize - (sr.aux k).bytesDownloaded)
              ((sr.aux k).timeElapsed)
              (t - (sr.aux k).timeElapsedOvershoot) with hdc | hdc
          · rw [hdc]
            rw [hest] at hbound
            linarith
          · linarith
        · rw [eAuxNe k hk]
          exact hO k

/-- One loop body of `estimate()` under the structural invariant: it
succeeds and preserves the structural, capacity and overshoot invariants,
and keeps every queued non-NETWORK node queued. -/
lemma estBody_spec (g : Graph) (o : EstimatorOptions) (s : EstState)
    (hI : SchedInv g s) :
    ∃ s2, estBody g o s = .ok s2 ∧ SchedInv g s2 ∧
      ((∃ k : ℤ, (k : ℚ) = maximumConcurrentRequests o) →
        CapInv o s → CapInv o s2) ∧
      (∀ m ∈ s.nodesInQueue, g.typeOf m ≠ NodeType.network →
        m ∈ s2.nodesInQueue) ∧
      (OvershootInv s → OvershootInv s2) := by
  obtain ⟨a1, a2, a3, a4, a5, a6, a7⟩ := admitFold_invs g o s.nodesInQueue s
  set sA := List.foldl (fun st n => startNodeIfPossible g o st n) s s.nodesInQueue
    with hsA
  have hIA : SchedInv g sA := a1 hI
  set sB := updateNetworkCapacity o sA with hsB
  have hIB : SchedInv g sB := capacity_SchedInv g o sA hIA
  obtain ⟨m2, s3, hfn, q1, q2, q3, q4, q5, q6, q7, q8, q9, q10, q11⟩ :=
    findNextLoop_ok g sB.nodesInProcess none sB hIB.net
  have hnet4 : ∀ n ∈ s3.nodesInProcess, g.typeOf n = NodeType.network := by
    intro n hn
    rw [q2] at hn
    exact hIB.net n hn
  have hpw4 : s3.nodesInProcess.Pairwise (fun a b => cidOf g a ≠ cidOf g b) := by
    rw [q2]
    exact hIB.distinct
  have hI3 : SchedInv g s3 := by
    refine ⟨hnet4, ?_, ?_, hpw4⟩
    · rw [q2]
      exact hIB.nodup
    · intro n hn
      rw [q2] at hn
      rw [q4]
      exact hIB.inUse n hn
  have hI4 : SchedInv g
      { s3 with totalElapsedTime := eadd s3.totalElapsedTime m2 } :=
    ⟨hI3.net, hI3.nodup, hI3.inUse, hI3.distinct⟩
  have hmem4 : ∀ n ∈ s3.nodesInProcess, n ∈
      ({ s3 with totalElapsedTime := eadd s3.totalElapsedTime m2 } :
        EstState).nodesInProcess := fun n hn => hn
  have hsame4 : ∀ n ∈ s3.nodesInProcess,
      ((({ s3 with totalElapsedTime := eadd s3.totalElapsedTime m2 } :
          EstState).aux n).timeElapsed = (sB.aux n).timeElapsed) ∧
      ((({ s3 with totalElapsedTime := eadd s3.totalElapsedTime m2 } :
          EstState).aux n).timeElapsedOvershoot =
        (sB.aux n).timeElapsedOvershoot) ∧
      ((({ s3 with totalElapsedTime := eadd s3.totalElapsedTime m2 } :
          EstState).aux n).bytesDownloaded = (sB.aux n).bytesDownloaded) ∧
      (({ s3 with totalElapsedTime := eadd s3.totalElapsedTime m2 } :
          EstState).conns (cidOf g n) = sB.conns (cidOf g n)) := by
    intro n _
    obtain ⟨-, d1, d2, d3, -⟩ := q7 n
    exact ⟨d1, d2, d3, congrFun q5 (cidOf g n)⟩
  obtain ⟨s5, hloop, hI5, hlen, hq, htot, hov⟩ :=
    updateLoop_master g m2 sB s3.nodesInProcess
      { s3 with totalElapsedTime := eadd s3.totalElapsedTime m2 }
      hnet4 hpw4 hmem4 hsame4 hI4
  refine ⟨s5, ?_, hI5, ?_, ?_, ?_⟩
  · unfold estBody
    dsimp only
    rw [← hsA, ← hsB, hfn]
    exact hloop
  · intro hint hC
    have hCB : CapInv o sB := a2 hint hI hC
    have hlen5 : s5.nodesInProcess.length ≤ sB.nodesInProcess.length := by
      have h1 : ({ s3 with totalElapsedTime := eadd s3.totalElapsedTime m2 } :
          EstState).nodesInProcess.length = sB.nodesInProcess.length := by
        show s3.nodesInProcess.length = sB.nodesInProcess.length
        rw [q2]
      omega
    exact le_trans (Nat.cast_le.mpr hlen5) hCB
  · intro m hm ht
    have h1 : m ∈ sA.nodesInQueue := a7 m hm ht
    have h3 : m ∈ ({ s3 with totalElapsedTime := eadd s3.totalElapsedTime m2 } :
        EstState).nodesInQueue := by
      show m ∈ s3.nodesInQueue
      rw [q1]
      exact h1
    exact hq m h3
  · intro hO
    have hOB : OvershootInv sB := a3 hO
    have hO4 : OvershootInv
        { s3 with totalElapsedTime := eadd s3.totalElapsedTime m2 } := by
      intro k
      obtain ⟨-, -, h3, -, -⟩ := q7 k
      show 0 ≤ (s3.aux k).timeElapsedOvershoot
      rw [h3]
      exact hOB k
    refine hov hO4 ?_
    intro n hn
    cases hm2 : m2 with
    | none =>
      obtain ⟨-, hempty⟩ := q11 hm2
      rw [q2, hempty] at hn
      exact absurd hn (by simp)
    | some t =>
      refine ⟨t, rfl, ?_⟩
      refine (q10 t hm2).1 n ?_
      rw [← q2]
      exact hn

/-- The initial state satisfies the structural invariant (nothing is in
process). -/
lemma initState_SchedInv (g : Graph) (o : EstimatorOptions) :
    SchedInv g (initState g o) := by
  refine ⟨?_, ?_, ?_, ?_⟩ <;> simp [initState]

/-- All four run invariants hold at every state reached by the main
loop. -/
lemma reaches_invs (g : Graph) (o : EstimatorOptions) (s0 s : EstState)
    (h : Reaches g o s0 s) (hI : SchedInv g s0) :
    SchedInv g s ∧
    ((∃ k : ℤ, (k : ℚ) = maximumConcurrentRequests o) →
      CapInv o s0 → CapInv o s) ∧
    (∀ m, m ∈ s0.nodesInQueue → g.typeOf m ≠ NodeType.network →
      m ∈ s.nodesInQueue) ∧
    (OvershootInv s0 → OvershootInv s) := by
  induction h with
  | refl => exact ⟨hI, fun _ h => h, fun m hm _ => hm, id⟩
  | step hreach hbody ih =>
    obtain ⟨i1, i2, i3, i4⟩ := ih
    obtain ⟨s2, hok, j1, j2, j3, j4⟩ := estBody_spec g o _ i1
    rw [hbody] at hok
    injection hok with hok
    subst hok
    exact ⟨j1, fun hint hC => j2 hint (i2 hint hC),
      fun m hm ht => j3 m (i3 m hm ht) ht, fun hO => j4 (i4 hO)⟩

/-- One unfolding of the guarded main loop. -/
lemma estLoop_step (g : Graph) (o : EstimatorOptions) (f : ℕ) (s : EstState) :
    estLoop g o f s =
      if s.nodesInQueue.isEmpty && s.nodesInProcess.isEmpty then
        .ok s.totalElapsedTime
      else
        match estBody g o s with
        | .error e => .error e
        | .ok s1 =>
          match f with
          | 0 => .error .depthExceeded
          | fuel + 1 => estLoop g o fuel s1 := by
  rw [estLoop.eq_def]

/-- Under the structural invariant the main loop never reports
`unsupported`. -/
lemma estLoop_no_unsupported (g : Graph) (o : EstimatorOptions) :
    ∀ (f : ℕ) (s : EstState), SchedInv g s →
      estLoop g o f s ≠ .error .unsupported := by
  intro f
  induction f with
  | zero =>
    intro s hI hc
    rw [estLoop_step] at hc
    by_cases hdone : (s.nodesInQueue.isEmpty && s.nodesInProcess.isEmpty) = true
    · rw [if_pos hdone] at hc
      cases hc
    · rw [if_neg hdone] at hc
      obtain ⟨s2, hok, -, -, -, -⟩ := estBody_spec g o s hI
      rw [hok] at hc
      have hc2 : (Except.error .depthExceeded : Except EstError (Option ℚ)) =
          .error .unsupported := hc
      simp at hc2
  | succ f ih =>
    intro s hI hc
    rw [estLoop_step] at hc
    by_cases hdone : (s.nodesInQueue.isEmpty && s.nodesInProcess.isEmpty) = true
    · rw [if_pos hdone] at hc
      cases hc
    · rw [if_neg hdone] at hc
      obtain ⟨s2, hok, hI2, -, -, -⟩ := estBody_spec g o s hI
      rw [hok] at hc
      have hc2 : estLoop g o f s2 = .error .unsupported := hc
      exact ih s2 hI2 hc2

/-- With an unstartable (non-NETWORK) node stuck in the queue, the main
loop can never finish: it burns all its fuel and reports the depth
guard. -/
lemma estLoop_depth (g : Graph) (o : EstimatorOptions) (r : ℕ)
    (hr : g.typeOf r ≠ NodeType.network) :
    ∀ (f : ℕ) (s : EstState), SchedInv g s → r ∈ s.nodesInQueue →
      estLoop g o f s = .error .depthExceeded := by
  intro f
  induction f with
  | zero =>
    intro s hI hr2
    rw [estLoop_step]
    have hcond : ¬ (s.nodesInQueue.isEmpty && s.nodesInProcess.isEmpty) = true := by
      intro hc
      rw [Bool.and_eq_true, List.isEmpty_iff, List.isEmpty_iff] at hc
      rw [hc.1] at hr2
      exact absurd hr2 (by simp)
    rw [if_neg hcond]
    obtain ⟨s2, hok, -, -, -, -⟩ := estBody_spec g o s hI
    rw [hok]
  | succ f ih =>
    intro s hI hr2
    rw [estLoop_step]
    have hcond : ¬ (s.nodesInQueue.isEmpty && s.nodesInProcess.isEmpty) = true := by
      intro hc
      rw [Bool.and_eq_true, List.isEmpty_iff, List.isEmpty_iff] at hc
      rw [hc.1] at hr2
      exact absurd hr2 (by simp)
    rw [if_neg hcond]
    obtain ⟨s2, hok, hI2, -, j3, -⟩ := estBody_spec g o s hI
    rw [hok]
    have h2 : estLoop g o f s2 = .error .depthExceeded :=
      ih s2 hI2 (j3 r hr2 hr)
    exact h2

/-- C5: throughout every run of `estimate` — at every state reached from
the initial state by successful loop bodies — the number of in-process
nodes never exceeds `min(maximumSaturatedConnections(rtt, throughput),
configured maximumConcurrentRequests)`, every in-process node is a NETWORK
node, and no two simultaneously in-process nodes use the same connection.
The configured limit is assumed to be a nonnegative integer, as a
JavaScript integer option is. -/
theorem concurrency_capped (g : Graph) (o : EstimatorOptions) (s : EstState)
    (hreach : Reaches g o (initState g o) s)
    (hint : ∃ k : ℤ, (k : ℚ) = maximumConcurrentRequests o)
    (hpos : 0 ≤ maximumConcurrentRequests o) :
    ((s.nodesInProcess.length : ℚ) ≤
      min ((TcpConnection.maximumSaturatedConnections o.rtt
          o.throughput : ℤ) : ℚ)
        o.maximumConcurrentRequests) ∧
    (∀ n ∈ s.nodesInProcess, g.typeOf n = NodeType.network) ∧
    s.nodesInProcess.Pairwise (fun m n => cidOf g m ≠ cidOf g n) := by
  obtain ⟨i1, i2, -, -⟩ :=
    reaches_invs g o (initState g o) s hreach (initState_SchedInv g o)
  have hC0 : CapInv o (initState g o) := by
    unfold CapInv initState
    simpa using hpos
  have hC := i2 hint hC0
  exact ⟨hC, i1.net, i1.distinct⟩

/-- Witness for the concurrency cap at the initial state of the two-node
graph under the default options (configured limit 10). -/
theorem concurrency_capped_witness :
    Reaches cycleGraph defaultOptions (initState cycleGraph defaultOptions)
      (initState cycleGraph defaultOptions) ∧
    (∃ k : ℤ, (k : ℚ) = maximumConcurrentRequests defaultOptions) ∧
    0 ≤ maximumConcurrentRequests defaultOptions ∧
    (((initState cycleGraph defaultOptions).nodesInProcess.length : ℚ) ≤
      min ((TcpConnection.maximumSaturatedConnections defaultOptions.rtt
          defaultOptions.throughput : ℤ) : ℚ)
        defaultOptions.maximumConcurrentRequests) :=
  ⟨Reaches.refl _, ⟨10, by decide⟩, by decide,
    (concurrency_capped cycleGraph defaultOptions _ (Reaches.refl _)
      ⟨10, by decide⟩ (by decide)).1⟩

/-- C7: throughout every run of `estimate`, every node's accumulated
`timeElapsedOvershoot` is nonnegative.  It starts at 0; in a
partial-progress update the second query's deadline is the step length
minus the overshoot, and its elapsed time either coincides with the full
query — which is bounded below by the step length, the minimum of the
stored estimates — or exceeds the deadline, so the update
`overshoot += timeElapsed − stepLength` keeps it ≥ 0. -/
theorem overshoot_never_negative (g : Graph) (o : EstimatorOptions)
    (s : EstState) (hreach : Reaches g o (initState g o) s) :
    ∀ k, 0 ≤ (s.aux k).timeElapsedOvershoot := by
  obtain ⟨-, -, -, i4⟩ :=
    reaches_invs g o (initState g o) s hreach (initState_SchedInv g o)
  show OvershootInv s
  refine i4 ?_
  intro k
  exact le_refl 0

/-- Witness for overshoot nonnegativity at the initial state of the
two-node graph. -/
theorem overshoot_never_negative_witness :
    Reaches cycleGraph defaultOptions (initState cycleGraph defaultOptions)
      (initState cycleGraph defaultOptions) ∧
    0 ≤ (((initState cycleGraph defaultOptions).aux 0).timeElapsedOvershoot) :=
  ⟨Reaches.refl _,
    overshoot_never_negative cycleGraph defaultOptions _ (Reaches.refl _) 0⟩

/-- C10: `estimate` never reports the `unsupported` error — only NETWORK
nodes ever enter the in-process set, so the `unsupported` branches of the
estimate and progress queries are unreachable — and a graph whose root is
not a NETWORK node (reachable, but never startable) instead ends the run
through the depth guard. -/
theorem unsupported_is_unreachable :
    (∀ (g : Graph) (o : EstimatorOptions),
      estimate g o ≠ .error .unsupported) ∧
    (∀ (g : Graph) (o : EstimatorOptions),
      g.typeOf g.root ≠ NodeType.network →
      estimate g o = .error .depthExceeded) := by
  constructor
  · intro g o
    exact estLoop_no_unsupported g o 10000 (initState g o)
      (initState_SchedInv g o)
  · intro g o hr
    refine estLoop_depth g o g.root hr 10000 (initState g o)
      (initState_SchedInv g o) ?_
    show g.root ∈ [g.root]
    simp

/-- Witness for C10 on the single-CPU-root graph: no `unsupported` error,
and the depth guard fires. -/
theorem unsupported_is_unreachable_witness :
    cpuRootGraph.typeOf cpuRootGraph.root ≠ NodeType.network ∧
    estimate cpuRootGraph defaultOptions ≠ .error .unsupported ∧
    estimate cpuRootGraph defaultOptions = .error .depthExceeded :=
  ⟨by decide,
    unsupported_is_unreachable.1 cpuRootGraph defaultOptions,
    unsupported_is_unreachable.2 cpuRootGraph defaultOptions (by decide)⟩

/-- C8 counterexample: the two-node graph with a dependency cycle through
the root does NOT raise the depth-exceeded error — the cycle nodes are
simply never admitted twice and the run terminates normally with 960 ms
(two sequential cold requests of 480 ms each). -/
theorem cycle_terminates_normally :
    (1 ∈ cycleGraph.deps 0 ∧ 0 ∈ cycleGraph.deps 1) ∧
    estimate cycleGraph defaultOptions = .ok (some 960) ∧
    estimate cycleGraph defaultOptions ≠ .error .depthExceeded := by
  have h : estimate cycleGraph defaultOptions = .ok (some 960) := by decide!
  refine ⟨by decide, h, ?_⟩
  rw [h]
  intro hc
  cases hc

/-- C8 (amended): `estimate` has exactly the two failure modes
`unsupported` and `depthExceeded`; the depth guard does fire — e.g. for
any graph whose root is not a NETWORK node, which stays queued forever —
but a dependency cycle is not what triggers it. -/
theorem error_modes :
    (∀ (g : Graph) (o : EstimatorOptions) (e : EstError),
      estimate g o = .error e → e = .unsupported ∨ e = .depthExceeded) ∧
    (∀ (g : Graph) (o : EstimatorOptions),
      g.typeOf g.root ≠ NodeType.network →
      estimate g o = .error .depthExceeded) := by
  constructor
  · intro g o e _
    cases e
    · exact Or.inl rfl
    · exact Or.inr rfl
  · intro g o hr
    refine estLoop_depth g o g.root hr 10000 (initState g o)
      (initState_SchedInv g o) ?_
    show g.root ∈ [g.root]
    simp

/-- Witness for the failure modes: the single-CPU-root graph under the
counterexample options exhausts the depth guard, and that error is one of
the two modes. -/
theorem error_modes_witness :
    cpuRootGraph.typeOf cpuRootGraph.root ≠ NodeType.network ∧
    estimate cpuRootGraph o9 = .error .depthExceeded ∧
    (EstError.depthExceeded = .unsupported ∨
      EstError.depthExceeded = .depthExceeded) :=
  ⟨by decide, error_modes.2 cpuRootGraph o9 (by decide),
    error_modes.1 cpuRootGraph o9 .depthExceeded
      (error_modes.2 cpuRootGraph o9 (by decide))⟩

/-- C9 counterexample: on the eight-node graph `g9`, doubling the
configured throughput (1,000,000 → 2,000,000 bits/sec, everything else
fixed) increases the estimated total elapsed time from 3003 ms to
3005 ms: the faster mid-size transfer frees a slot that lets a huge
transfer grab connection 9 before the tiny critical node that shares
it. -/
theorem doubling_throughput_can_increase_estimate :
    estimate g9 o9 = .ok (some 3003) ∧
    estimate g9 { o9 with throughput := 2 * o9.throughput } =
      .ok (some 3005) ∧
    ¬ ((3005 : ℚ) ≤ 3003) := by
  refine ⟨by decide!, by decide!, by norm_num⟩

/-- C9 (amended): at the level of a single connection the monotonicity
does hold — raising `availableThroughput` never increases the elapsed
time of a full (no-deadline) `calculateTimeToDownload` query, for a
nonnegative round-trip time.  The scheduler-level claim fails only through
ordering effects between connections. -/
theorem connection_throughput_mono (c : TcpConnection) (b te t2 : ℚ)
    (hr : 0 ≤ c.rtt) (ht : c.availableThroughput ≤ t2) :
    ((c.setThroughput t2).calculateTimeToDownload b te none).timeElapsed ≤
      (c.calculateTimeToDownload b te none).timeElapsed :=
  TcpConnection.calculate_throughput_mono c b te t2 hr ht

/-- Witness for connection-level throughput monotonicity: a cold
connection at rtt 100, throughput 1000 → 2000, downloading 14600 bytes. -/
theorem connection_throughput_mono_witness :
    (0 : ℚ) ≤ (TcpConnection.mk0 100 1000).rtt ∧
    (TcpConnection.mk0 100 1000).availableThroughput ≤ 2000 ∧
    (((TcpConnection.mk0 100 1000).setThroughput 2000).calculateTimeToDownload
        14600 0 none).timeElapsed ≤
      ((TcpConnection.mk0 100 1000).calculateTimeToDownload
        14600 0 none).timeElapsed :=
  ⟨by decide, by decide,
    connection_throughput_mono (TcpConnection.mk0 100 1000) 14600 0 2000
      (by decide) (by decide)⟩

end Estimator

end Lighthouse
